import Mathlib

/- Shallow embedding of zonuexe/pdf.js-controller, src/src/PDFJSController.ts.

   Two layers are modelled:

   1. The render layer: the body of `renderPage` (lines 171-240), `updateProgress`
      (242-251), the static `Events` accessor (95-100) and the CSS-width fallback
      (185-192).  The external engine's fallible asynchronous steps (page fetch,
      raster render, text-layer render, annotation-layer render) are modelled as
      `Except Nat Unit` outcomes supplied by the environment; DOM dispatches and
      layer mutations are recorded in an event log.  JavaScript numbers that the
      code tests with `Number.isFinite` are modelled by `JsNum` (a rational or a
      non-finite value); all other numeric DOM quantities are rationals.
      `Math.round x` is `round x` (both are `⌊x + 1/2⌋`).

   2. The queue layer: `queueRenderPage` (151-164) chains every render onto the
      single `promiseQueue` promise via `.then(...).catch(...)`.  This is modelled
      operationally: a store of promise states, a list of registered promise
      reactions (the `.then` and `.catch` callbacks, in registration order), and a
      deterministic microtask drain that repeatedly fires the first reaction whose
      source promise has settled, exactly as the event loop runs the chain to
      quiescence between observable actions.  The observable actions (the
      nondeterministic interleaving) are the controller operations `fitItSize`,
      `nextPage`, `prevPage`, the render issued by `loadDocument`, and the
      completion (fulfilment or rejection) of the in-flight `renderPage` call.
      `renderPage` is opaque at this layer: starting it and settling it are
      recorded in a trace, which is what the serialization claims speak about.
-/

namespace PDFJSController

/-- The record returned by the static `Events` accessor (lines 95-100 of the
source): the before event type is hyphen-separated, the after event type is
underscore-separated. -/
structure EventsSpec where
  before_pdf_rendering : String
  after_pdf_rendering : String
deriving DecidableEq

/-- `PDFJSController.Events` from the source, lines 95-100. -/
def Events : EventsSpec :=
  { before_pdf_rendering := "before-pdf-rendering"
    after_pdf_rendering := "after_pdf_rendering" }

/-- A JavaScript number as tested by `!x || !Number.isFinite(x)`: either a finite
rational or a non-finite value (NaN, Infinity, -Infinity). -/
inductive JsNum
  | fin (q : ℚ)
  | nonfinite
deriving DecidableEq

/-- The test `!cssWidth || !Number.isFinite(cssWidth)` of line 188: true when the
number is 0, NaN, or non-finite. -/
def jsFalsyOrNonFinite : JsNum → Bool
  | JsNum.fin q => decide (q = 0)
  | JsNum.nonfinite => true

/-- A page's intrinsic size: `page.getViewport({scale: 1})` width and height. -/
structure PageGeom where
  intrinsicWidth : ℚ
  intrinsicHeight : ℚ

/-- Inputs to one `renderPage` call: DOM geometry, device pixel ratio, and the
outcomes of the four fallible engine steps, plus what `updateProgress` needs. -/
structure RenderEnv where
  containerWidth : JsNum
  canvasClientWidth : ℚ
  dpr : ℚ
  page : PageGeom
  getPageResult : Except Nat Unit
  rasterResult : Except Nat Unit
  textResult : Except Nat Unit
  annotationsResult : Except Nat Unit
  progressBarPresent : Bool
  numPages : Nat

/-- Observable steps of a `renderPage` call, in order of occurrence. -/
inductive REv
  | dispatch (ty : String)
  | cleanupLayers
  | rasterStart
  | textStart
  | annotationsStart
  | progress (percent : ℚ)
deriving DecidableEq

/-- Result of one `renderPage` call: the log of observable steps, the settled
value of the returned promise, and the values written to the canvas backing
store and CSS sizes (None when the code path never reached those writes). -/
structure RenderOut where
  log : List REv
  result : Except Nat Unit
  canvasWidth : Option ℤ
  canvasHeight : Option ℤ
  cssWidth : Option ℚ
  scale : Option ℚ

/-- Number of occurrences of an event in a log. -/
def countEv (e : REv) : List REv → Nat
  | [] => 0
  | x :: xs => (if x = e then 1 else 0) + countEv e xs

/-- Lines 187-190: `let cssWidth = containerRect.width; if (!cssWidth ||
!Number.isFinite(cssWidth)) cssWidth = canvas.clientWidth ||
initialViewport.width;`. -/
def resolveCssWidth (containerWidth : JsNum) (clientWidth intrinsicWidth : ℚ) : ℚ :=
  match containerWidth with
  | JsNum.fin q =>
      if q = 0 then (if clientWidth = 0 then intrinsicWidth else clientWidth) else q
  | JsNum.nonfinite => if clientWidth = 0 then intrinsicWidth else clientWidth

/-- `updateProgress`, lines 242-251: no-op without a progress bar or document;
otherwise the progress-bar width percentage that is applied. -/
def updateProgress (progressBarPresent docLoaded : Bool) (pageNumber numPages : Nat) :
    Option ℚ :=
  if !progressBarPresent || !docLoaded then none
  else some (if numPages = 1 then 100
             else 100 * ((pageNumber : ℚ) - 1) / ((numPages : ℚ) - 1))

/-- `renderPage`, lines 171-240.  The before event is dispatched, then the try
block runs: page fetch, layer cleanup, geometry (CSS width fallback, scale,
viewport, device-pixel-ratio-scaled backing store clamped to 16384), the raster
render and text-layer render awaited together (the raster rejection is
delivered first, matching the array order in `Promise.all`), then the
annotation layer.  The finally block dispatches the after event on every exit
path; `updateProgress` runs after the finally, only on success. -/
def renderPage (docLoaded : Bool) (pageNumber : Nat) (env : RenderEnv) : RenderOut :=
  if !docLoaded then
    { log := [], result := Except.ok (), canvasWidth := none, canvasHeight := none,
      cssWidth := none, scale := none }
  else
    let beforeEv := REv.dispatch Events.before_pdf_rendering
    let afterEv := REv.dispatch Events.after_pdf_rendering
    match env.getPageResult with
    | Except.error e =>
        { log := [beforeEv, afterEv], result := Except.error e, canvasWidth := none,
          canvasHeight := none, cssWidth := none, scale := none }
    | Except.ok _ =>
        let iw := env.page.intrinsicWidth
        let cssW := resolveCssWidth env.containerWidth env.canvasClientWidth iw
        let sc := cssW / iw
        let vw := iw * sc
        let vh := env.page.intrinsicHeight * sc
        let d := if env.dpr = 0 then 1 else env.dpr
        let cw := min (round (vw * d)) 16384
        let ch := min (round (vh * d)) 16384
        let base : List REv := [beforeEv, REv.cleanupLayers, REv.rasterStart, REv.textStart]
        match env.rasterResult, env.textResult with
        | Except.error e, _ =>
            { log := base ++ [afterEv], result := Except.error e, canvasWidth := some cw,
              canvasHeight := some ch, cssWidth := some cssW, scale := some sc }
        | Except.ok _, Except.error e =>
            { log := base ++ [afterEv], result := Except.error e, canvasWidth := some cw,
              canvasHeight := some ch, cssWidth := some cssW, scale := some sc }
        | Except.ok _, Except.ok _ =>
            match env.annotationsResult with
            | Except.error e =>
                { log := base ++ [REv.annotationsStart, afterEv], result := Except.error e,
                  canvasWidth := some cw, canvasHeight := some ch, cssWidth := some cssW,
                  scale := some sc }
            | Except.ok _ =>
                let plog : List REv :=
                  match updateProgress env.progressBarPresent true pageNumber env.numPages with
                  | none => []
                  | some q => [REv.progress q]
                { log := base ++ [REv.annotationsStart, afterEv] ++ plog,
                  result := Except.ok (), canvasWidth := some cw, canvasHeight := some ch,
                  cssWidth := some cssW, scale := some sc }

end PDFJSController

namespace PDFJSController.Queue

/-- The settled value of a promise in the queue model.  An error is tagged with
the index (in enqueue order) of the render whose failure originated it, so a
rejection can be traced to the render that threw. -/
inductive PRes
  | ok
  | err (origin : Nat)
deriving DecidableEq

/-- A registered promise reaction of the queue.  `queueRenderPage` builds
exactly two shapes (line 156-161):
`thenRender src k page tgt` is the `.then(() => this.renderPage(pageNumber))`
callback: when `src` fulfils it starts render number `k` (whose own settlement
then settles `tgt`); when `src` rejects, `tgt` rejects with the same error.
`catchReset src tgt` is the `.catch((error) => { this.promiseQueue =
Promise.resolve(); throw error; })` callback: when `src` fulfils so does `tgt`;
when `src` rejects, `this.promiseQueue` is reset to a fresh resolved promise
and `tgt` rejects with the same error. -/
inductive Reaction
  | thenRender (src : Nat) (renderIdx : Nat) (page : Nat) (tgt : Nat)
  | catchReset (src : Nat) (tgt : Nat)
deriving DecidableEq

/-- Trace events of the queue layer: a `renderPage` call starting, a
`renderPage` call settling, and the queue resetting itself after a failure. -/
inductive QEv
  | start (renderIdx : Nat) (page : Nat)
  | finish (renderIdx : Nat) (r : PRes)
  | reset
deriving DecidableEq

/-- State of the controller together with its promise queue.  `pstates` is the
promise store (index = promise id, `none` = pending); `reactions` are the
registered reactions in registration order; `promiseQueue` is the promise id
currently held in `this.promiseQueue`; `running` is the in-flight `renderPage`
call (render index and the promise id its settlement settles); `futures.get k`
is the promise id returned to the caller who enqueued render `k`. -/
structure QState where
  pstates : List (Option PRes)
  reactions : List Reaction
  promiseQueue : Nat
  running : List (Nat × Nat)
  futures : List Nat
  nextRender : Nat
  trace : List QEv
  pageNum : Nat
  numPages : Nat
  docLoaded : Bool

/-- Look up a promise state (pending for out-of-range ids). -/
def pget : List (Option PRes) → Nat → Option PRes
  | [], _ => none
  | x :: _, 0 => x
  | _ :: ps, n + 1 => pget ps n

/-- Settle the promise at an index. -/
def pset : List (Option PRes) → Nat → PRes → List (Option PRes)
  | [], _, _ => []
  | _ :: ps, 0, v => some v :: ps
  | x :: ps, n + 1, v => x :: pset ps n v

def getP (s : QState) (p : Nat) : Option PRes := pget s.pstates p

/-- The source promise a reaction is registered on. -/
def rSrc : Reaction → Nat
  | Reaction.thenRender src _ _ _ => src
  | Reaction.catchReset src _ => src

/-- A reaction can fire once its source promise has settled. -/
def fireableL (ps : List (Option PRes)) (r : Reaction) : Bool := (pget ps (rSrc r)).isSome

/-- Remove the first list element satisfying the predicate, keeping the order of
the others. -/
def extractFirst (p : Reaction → Bool) : List Reaction → Option (Reaction × List Reaction)
  | [] => none
  | r :: rs =>
      if p r then some (r, rs)
      else
        match extractFirst p rs with
        | none => none
        | some (r', rs') => some (r', r :: rs')

/-- Run the first runnable promise reaction, following the semantics of the two
callbacks built by `queueRenderPage` (lines 156-161): a `.then` callback on a
fulfilled source starts the render; on a rejected source it forwards the error
without running the render.  A `.catch` callback on a fulfilled source forwards
fulfilment; on a rejected source it reassigns `this.promiseQueue` to a fresh
resolved promise and rethrows. -/
def fireOne (s : QState) : Option QState :=
  match extractFirst (fireableL s.pstates) s.reactions with
  | none => none
  | some (Reaction.thenRender src k pg tgt, rest) =>
      match pget s.pstates src with
      | some PRes.ok =>
          some { s with reactions := rest, running := s.running ++ [(k, tgt)],
                        trace := s.trace ++ [QEv.start k pg] }
      | some (PRes.err e) =>
          some { s with reactions := rest, pstates := pset s.pstates tgt (PRes.err e) }
      | none => none
  | some (Reaction.catchReset src tgt, rest) =>
      match pget s.pstates src with
      | some PRes.ok =>
          some { s with reactions := rest, pstates := pset s.pstates tgt PRes.ok }
      | some (PRes.err e) =>
          some { s with reactions := rest,
                        pstates := pset s.pstates tgt (PRes.err e) ++ [some PRes.ok],
                        promiseQueue := s.pstates.length,
                        trace := s.trace ++ [QEv.reset] }
      | none => none

/-- Run promise reactions until none can fire.  Each firing removes one
reaction and registers none, so the reaction count is enough fuel. -/
def drainAux : Nat → QState → QState
  | 0, s => s
  | fuel + 1, s =>
      match fireOne s with
      | none => s
      | some s' => drainAux fuel s'

/-- Drain the microtask queue to quiescence, as the event loop does between
observable actions. -/
def drain (s : QState) : QState := drainAux s.reactions.length s

/-- `queueRenderPage`, lines 151-164.  Without a document it returns an already
resolved promise (modelled as `none`) and registers nothing.  Otherwise it
allocates the `.then` promise and the `.catch` promise, registers the two
reactions on the current `promiseQueue` tail, stores the `.catch` promise back
into `this.promiseQueue`, and returns it to the caller. -/
def queueRenderPage (s : QState) (page : Nat) : QState × Option Nat :=
  if s.docLoaded then
    let t1 := s.pstates.length
    let t2 := t1 + 1
    ({ s with
        pstates := s.pstates ++ [none, none]
        reactions := s.reactions ++
          [Reaction.thenRender s.promiseQueue s.nextRender page t1,
           Reaction.catchReset t1 t2]
        promiseQueue := t2
        futures := s.futures ++ [t2]
        nextRender := s.nextRender + 1 }, some t2)
  else (s, none)

/-- `prevPage`, lines 135-141: a no-op at page 1, otherwise decrement the page
number and enqueue a render of it.  Note there is no document check before the
decrement; only `queueRenderPage` checks the document. -/
def prevPage (s : QState) : QState × Option Nat :=
  if s.pageNum ≤ 1 then (s, none)
  else queueRenderPage { s with pageNum := s.pageNum - 1 } (s.pageNum - 1)

/-- `nextPage`, lines 143-149: a no-op without a document or at the last page,
otherwise increment the page number and enqueue a render of it. -/
def nextPage (s : QState) : QState × Option Nat :=
  if !s.docLoaded || s.numPages ≤ s.pageNum then (s, none)
  else queueRenderPage { s with pageNum := s.pageNum + 1 } (s.pageNum + 1)

/-- `fitItSize`, lines 128-133 (the canvas resize itself is not part of the
queue model): enqueue a render of the current page. -/
def fitItSize (s : QState) : QState × Option Nat := queueRenderPage s s.pageNum

/-- The four controller operations whose interleavings the specification
quantifies over. -/
inductive COp
  | fit
  | next
  | prev
  | loadRender
deriving DecidableEq

def doCOp (s : QState) : COp → QState × Option Nat
  | COp.fit => fitItSize s
  | COp.next => nextPage s
  | COp.prev => prevPage s
  | COp.loadRender => queueRenderPage s s.pageNum

/-- The environment settles the in-flight `renderPage` call: its promise
fulfils, or rejects with an error tagged by the render's index. -/
def finishStep (s : QState) (ok : Bool) : QState :=
  match s.running with
  | [] => s
  | (k, tgt) :: rest =>
      let r := if ok then PRes.ok else PRes.err k
      { s with running := rest
               pstates := pset s.pstates tgt r
               trace := s.trace ++ [QEv.finish k r] }

/-- One observable action: a controller operation, or the completion of the
in-flight render.  After each, the event loop drains the promise reactions to
quiescence. -/
inductive Cmd
  | op (o : COp)
  | finish (ok : Bool)
deriving DecidableEq

def stepCmd (s : QState) : Cmd → QState
  | Cmd.op o => drain (doCOp s o).1
  | Cmd.finish b => drain (finishStep s b)

def runCmds (s : QState) (cs : List Cmd) : QState := cs.foldl stepCmd s

/-- The controller state right after construction (lines 41-55): an already
resolved `promiseQueue` (promise id 0), no pending reactions, no renders, the
configured page number and the given document state. -/
def initState (p n : Nat) (doc : Bool) : QState :=
  { pstates := [some PRes.ok], reactions := [], promiseQueue := 0, running := [],
    futures := [], nextRender := 0, trace := [], pageNum := p, numPages := n,
    docLoaded := doc }

/-- Outcome of `pdfjsLib.getDocument(...).promise` inside `loadDocument`. -/
inductive OpenResult
  | success (numPages : Nat)
  | failure (e : Nat)

/-- `loadDocument`, lines 102-126.  If the document open rejects, the error
propagates to the caller and the state is untouched (the loading-icon listener
added at line 108 is removed again by the `finally` at line 124, so it cancels
out).  On success the document handle and page count are stored and a render of
the current page is enqueued. -/
def loadDocument (s : QState) (r : OpenResult) : QState × Except Nat Unit :=
  match r with
  | OpenResult.failure e => (s, Except.error e)
  | OpenResult.success n =>
      (stepCmd { s with docLoaded := true, numPages := n } (Cmd.op COp.loadRender),
       Except.ok ())

/-- Serialization automaton over queue traces.  State: the index of the render
currently executing (if any) and a strict lower bound on the next render index
allowed to start.  A render may start only when none is executing and only with
an index at least the bound (so starts are strictly increasing, hence in
enqueue order); a finish must name the executing render.  `none` means the
trace violates serialization. -/
def autoStep : Option Nat × Nat → QEv → Option (Option Nat × Nat)
  | (none, lo), QEv.start k _ => if lo ≤ k then some (some k, k + 1) else none
  | (some _, _), QEv.start _ _ => none
  | (some j, lo), QEv.finish k _ => if k = j then some (none, lo) else none
  | (none, _), QEv.finish _ _ => none
  | st, QEv.reset => some st

def autoRun (st : Option Nat × Nat) : List QEv → Option (Option Nat × Nat)
  | [] => some st
  | e :: es =>
      match autoStep st e with
      | none => none
      | some st' => autoRun st' es

/-- The reactions of a pending chain segment for the given entries.  Each entry
`(k, page, t1, t2)` is one enqueued render: the `.then` promise `t1` and the
`.catch` promise `t2`, linked from the previous `.catch` promise (or the given
root). -/
def chainReacts (root : Nat) : List (Nat × Nat × Nat × Nat) → List Reaction
  | [] => []
  | (k, pg, t1, t2) :: rest =>
      Reaction.thenRender root k pg t1 :: Reaction.catchReset t1 t2 :: chainReacts t2 rest

/-- Well-formedness of a pending chain in store `ps`: render indices are
consecutive starting at `k0`, promise ids strictly increase above `prev`, stay
in range, are all pending, and the chain ends at promise `pq` (the current
`promiseQueue`) with `nr` the next render index. -/
def entriesWF (ps : List (Option PRes)) :
    Nat → Nat → List (Nat × Nat × Nat × Nat) → Nat → Nat → Prop
  | k0, prev, [], pq, nr => pq = prev ∧ nr = k0
  | k0, prev, (k, _, t1, t2) :: rest, pq, nr =>
      k = k0 ∧ prev < t1 ∧ t1 < t2 ∧ t2 < ps.length ∧
      pget ps t1 = none ∧ pget ps t2 = none ∧
      entriesWF ps (k0 + 1) t2 rest pq nr

/-- Pids of a chain are increasing, in range, and all pending (used for the
error cascade, where the chain is cut off from `promiseQueue`). -/
def chainPending (ps : List (Option PRes)) : Nat → List (Nat × Nat × Nat × Nat) → Prop
  | _, [] => True
  | prev, (_, _, t1, t2) :: rest =>
      prev < t1 ∧ t1 < t2 ∧ t2 < ps.length ∧
      pget ps t1 = none ∧ pget ps t2 = none ∧ chainPending ps t2 rest

/-- Reachability invariant of the queue at quiescence: at most one render is in
flight; the trace satisfies the serialization automaton with the automaton
state determined by the machine state; with no render in flight there are no
pending reactions and `promiseQueue` is a fulfilled promise; with a render in
flight the pending reactions are exactly its `.catch` reaction followed by the
well-formed chain of the renders enqueued behind it. -/
def Inv (s : QState) : Prop :=
  s.futures.length = s.nextRender ∧
  s.promiseQueue < s.pstates.length ∧
  match s.running with
  | [] =>
      s.reactions = [] ∧ getP s s.promiseQueue = some PRes.ok ∧
      ∃ lo, autoRun (none, 0) s.trace = some (none, lo) ∧ lo ≤ s.nextRender
  | [(j, t)] =>
      autoRun (none, 0) s.trace = some (some j, j + 1) ∧
      j + 1 ≤ s.nextRender ∧
      t < s.pstates.length ∧ getP s t = none ∧
      ∃ t2 es, t < t2 ∧ t2 < s.pstates.length ∧ getP s t2 = none ∧
        s.reactions = Reaction.catchReset t t2 :: chainReacts t2 es ∧
        entriesWF s.pstates (j + 1) t2 es s.promiseQueue s.nextRender
  | _ :: _ :: _ => False

/-- The evolution of `pageNum` under a command sequence when no document is
loaded: only `prevPage` changes it, decrementing when it is above 1. -/
def pageAfter (p : Nat) : List Cmd → Nat
  | [] => p
  | Cmd.op COp.prev :: cs => pageAfter (if p ≤ 1 then p else p - 1) cs
  | _ :: cs => pageAfter p cs

/-- A controller state with no document and nothing ever enqueued. -/
def InertState (s : QState) : Prop :=
  s.docLoaded = false ∧ s.trace = [] ∧ s.reactions = [] ∧ s.futures = [] ∧
  s.nextRender = 0 ∧ s.running = [] ∧ s.pstates = [some PRes.ok] ∧ s.promiseQueue = 0

/-- The last `.catch` promise id of a chain (the value held in `promiseQueue`
while the chain is pending). -/
def chainEnd (root : Nat) : List (Nat × Nat × Nat × Nat) → Nat
  | [] => root
  | (_, _, _, t2) :: rest => chainEnd t2 rest

/-- The scenario refuting claim C2 as stated: with a document of 5 pages, the
`loadDocument` render is enqueued (render 0 starts), `fitItSize` enqueues
render 1 behind it, and then render 0 rejects. -/
def failBehind : QState :=
  runCmds (initState 1 5 true) [Cmd.op COp.loadRender, Cmd.op COp.fit, Cmd.finish false]

/-- The scenario refuting claim C6 as stated: a controller constructed with
initial page number 2 and no document loaded, on which `prevPage` is called. -/
def prevNoDoc : QState := stepCmd (initState 2 5 false) (Cmd.op COp.prev)

end PDFJSController.Queue

namespace PDFJSController

/-- Claim C5: for 1 ≤ pageIndex ≤ pageCount, the progress percentage applied
after a successful render is 100 when pageCount is 1 and otherwise
100·(pageIndex−1)/(pageCount−1); in particular 0 on the first page, 100 on the
last page, and 50 for page 3 of 5. -/
theorem progress_percent_formula (pageIndex pageCount : Nat)
    (h1 : 1 ≤ pageIndex) (h2 : pageIndex ≤ pageCount) :
    (pageCount = 1 → updateProgress true true pageIndex pageCount = some 100) ∧
    (pageCount ≠ 1 → updateProgress true true pageIndex pageCount
        = some (100 * ((pageIndex : ℚ) - 1) / ((pageCount : ℚ) - 1))) ∧
    (pageIndex = 1 → pageCount ≠ 1 → updateProgress true true pageIndex pageCount = some 0) ∧
    (pageIndex = pageCount → updateProgress true true pageIndex pageCount = some 100) ∧
    updateProgress true true 3 5 = some 50 := by
  refine ⟨?_, ?_, ?_, ?_, ?_⟩
  · intro h; simp [updateProgress, h]
  · intro h; simp [updateProgress, h]
  · intro h h'; subst h; simp [updateProgress, h']
  · intro h
    subst h
    by_cases hc : pageIndex = 1
    · simp [updateProgress, hc]
    · have hge : 2 ≤ pageIndex := by omega
      have hq : ((pageIndex : ℚ) - 1) ≠ 0 := by
        have : (2 : ℚ) ≤ (pageIndex : ℚ) := by exact_mod_cast hge
        intro hzero
        nlinarith
      simp only [updateProgress, Bool.not_true, Bool.or_self, Bool.false_eq_true, if_false,
        hc, if_neg hc, ite_false]
      rw [mul_div_assoc, div_self hq, mul_one]
  · norm_num [updateProgress]

/-- Witness for `progress_percent_formula` at page 3 of 5. -/
theorem progress_percent_formula_witness :
    (1 ≤ 3 ∧ 3 ≤ 5) ∧
    ((5 = 1 → updateProgress true true 3 5 = some 100) ∧
     ((5 : Nat) ≠ 1 → updateProgress true true 3 5
         = some (100 * (((3 : Nat) : ℚ) - 1) / (((5 : Nat) : ℚ) - 1))) ∧
     ((3 = 1 → (5 : Nat) ≠ 1 → updateProgress true true 3 5 = some 0)) ∧
     ((3 = 5 → updateProgress true true 3 5 = some 100)) ∧
     updateProgress true true 3 5 = some 50) :=
  ⟨⟨by decide, by decide⟩, progress_percent_formula 3 5 (by decide) (by decide)⟩

end PDFJSController

namespace PDFJSController

/-- Claim C4: for every invocation of `renderPage` with a loaded document, the
before event is dispatched exactly once and the after event exactly once, in
that order, on every exit path — including when the page fetch, the raster
render, the text-layer render, or the annotation-layer render rejects. -/
theorem before_after_events_bracket (pageNumber : Nat) (env : RenderEnv) :
    countEv (REv.dispatch Events.before_pdf_rendering) (renderPage true pageNumber env).log
      = 1 ∧
    countEv (REv.dispatch Events.after_pdf_rendering) (renderPage true pageNumber env).log
      = 1 ∧
    (renderPage true pageNumber env).log.head?
      = some (REv.dispatch Events.before_pdf_rendering) ∧
    ∃ l1 l2, (renderPage true pageNumber env).log
      = REv.dispatch Events.before_pdf_rendering ::
          (l1 ++ REv.dispatch Events.after_pdf_rendering :: l2) := by
  obtain ⟨cw, ccw, d, pg, gp, rr, tr, ar, pb, np⟩ := env
  cases gp <;> cases rr <;> cases tr <;> cases ar <;> cases pb <;>
    simp [renderPage, countEv, Events, updateProgress] <;>
    first
      | exact ⟨[], [], rfl⟩
      | exact ⟨[REv.cleanupLayers, REv.rasterStart, REv.textStart], [], rfl⟩
      | exact ⟨[REv.cleanupLayers, REv.rasterStart, REv.textStart, REv.annotationsStart],
               [], rfl⟩
      | exact ⟨[REv.cleanupLayers, REv.rasterStart, REv.textStart, REv.annotationsStart],
               [REv.progress (if np = 1 then 100
                              else 100 * ((pageNumber : ℚ) - 1) / ((np : ℚ) - 1))], rfl⟩

end PDFJSController

namespace PDFJSController

/-- Claim C9: whenever a render reaches the canvas-sizing step (the page fetch
succeeded), the canvas backing-store width and height are set to the viewport
dimension times the device pixel ratio, rounded, clamped to at most 16384 each
— no matter how large the container, the scale, or the device pixel ratio are. -/
theorem canvas_backing_store_clamped (pageNumber : Nat) (env : RenderEnv)
    (h : env.getPageResult = Except.ok ()) :
    (renderPage true pageNumber env).canvasWidth
      = some (min (round (env.page.intrinsicWidth
            * (resolveCssWidth env.containerWidth env.canvasClientWidth
                 env.page.intrinsicWidth / env.page.intrinsicWidth)
            * (if env.dpr = 0 then 1 else env.dpr))) 16384) ∧
    (renderPage true pageNumber env).canvasHeight
      = some (min (round (env.page.intrinsicHeight
            * (resolveCssWidth env.containerWidth env.canvasClientWidth
                 env.page.intrinsicWidth / env.page.intrinsicWidth)
            * (if env.dpr = 0 then 1 else env.dpr))) 16384) ∧
    (∀ w, (renderPage true pageNumber env).canvasWidth = some w → w ≤ 16384) ∧
    (∀ hh, (renderPage true pageNumber env).canvasHeight = some hh → hh ≤ 16384) := by
  obtain ⟨cw, ccw, d, pg, gp, rr, tr, ar, pb, np⟩ := env
  cases gp with
  | error e => exact absurd h (by simp)
  | ok u =>
    cases rr <;> cases tr <;> cases ar <;>
      refine ⟨by simp [renderPage], by simp [renderPage], ?_, ?_⟩ <;>
      · intro w hw
        simp [renderPage] at hw
        omega

/-- Witness for `canvas_backing_store_clamped`: container 400 px wide, page
intrinsically 200×100 at scale 1, device pixel ratio 3, so the backing store
is 1200×600. -/
theorem canvas_backing_store_clamped_witness :
    ({ containerWidth := JsNum.fin 400, canvasClientWidth := 0, dpr := 3,
       page := { intrinsicWidth := 200, intrinsicHeight := 100 },
       getPageResult := Except.ok (), rasterResult := Except.ok (),
       textResult := Except.ok (), annotationsResult := Except.ok (),
       progressBarPresent := true, numPages := 5 : RenderEnv }).getPageResult
      = Except.ok () ∧
    (renderPage true 2
      { containerWidth := JsNum.fin 400, canvasClientWidth := 0, dpr := 3,
        page := { intrinsicWidth := 200, intrinsicHeight := 100 },
        getPageResult := Except.ok (), rasterResult := Except.ok (),
        textResult := Except.ok (), annotationsResult := Except.ok (),
        progressBarPresent := true, numPages := 5 }).canvasWidth = some 1200 := by
  constructor
  · rfl
  · have h := canvas_backing_store_clamped 2
      { containerWidth := JsNum.fin 400, canvasClientWidth := 0, dpr := 3,
        page := { intrinsicWidth := 200, intrinsicHeight := 100 },
        getPageResult := Except.ok (), rasterResult := Except.ok (),
        textResult := Except.ok (), annotationsResult := Except.ok (),
        progressBarPresent := true, numPages := 5 } rfl
    rw [h.1]
    norm_num [resolveCssWidth]

end PDFJSController

namespace PDFJSController

/-- Claim C8: during `renderPage`, when the container's bounding-box width is
zero or non-finite the CSS width falls back first to the canvas's rendered
(client) width and then to the page's intrinsic width, and the resulting scale
(CSS width over intrinsic width) is positive whenever the intrinsic width is
positive (widths read from the DOM are non-negative). -/
theorem css_width_fallback_scale_positive (pageNumber : Nat) (env : RenderEnv)
    (hok : env.getPageResult = Except.ok ())
    (hc : ∀ q, env.containerWidth = JsNum.fin q → 0 ≤ q)
    (hcl : 0 ≤ env.canvasClientWidth)
    (hiw : 0 < env.page.intrinsicWidth) :
    (renderPage true pageNumber env).scale
      = some (resolveCssWidth env.containerWidth env.canvasClientWidth
                env.page.intrinsicWidth / env.page.intrinsicWidth) ∧
    (jsFalsyOrNonFinite env.containerWidth = true → env.canvasClientWidth ≠ 0 →
      resolveCssWidth env.containerWidth env.canvasClientWidth env.page.intrinsicWidth
        = env.canvasClientWidth) ∧
    (jsFalsyOrNonFinite env.containerWidth = true → env.canvasClientWidth = 0 →
      resolveCssWidth env.containerWidth env.canvasClientWidth env.page.intrinsicWidth
        = env.page.intrinsicWidth) ∧
    (0 < resolveCssWidth env.containerWidth env.canvasClientWidth
           env.page.intrinsicWidth / env.page.intrinsicWidth) := by
  have hpos : 0 < resolveCssWidth env.containerWidth env.canvasClientWidth
      env.page.intrinsicWidth := by
    cases hcase : env.containerWidth with
    | fin q =>
      by_cases hq : q = 0
      · by_cases hccw : env.canvasClientWidth = 0
        · simpa [resolveCssWidth, hq, hccw] using hiw
        · have := lt_of_le_of_ne hcl (Ne.symm hccw)
          simpa [resolveCssWidth, hq, hccw] using this
      · have h0 := hc q hcase
        have := lt_of_le_of_ne h0 (Ne.symm hq)
        simpa [resolveCssWidth, hq] using this
    | nonfinite =>
      by_cases hccw : env.canvasClientWidth = 0
      · simpa [resolveCssWidth, hccw] using hiw
      · have := lt_of_le_of_ne hcl (Ne.symm hccw)
        simpa [resolveCssWidth, hccw] using this
  refine ⟨?_, ?_, ?_, div_pos hpos hiw⟩
  · obtain ⟨cw, ccw, d, pg, gp, rr, tr, ar, pb, np⟩ := env
    cases gp with
    | error e => exact absurd hok (by simp)
    | ok u => cases rr <;> cases tr <;> cases ar <;> simp [renderPage]
  · intro hfals hccw
    cases hcase : env.containerWidth with
    | fin q =>
      have hq : q = 0 := by
        rw [hcase] at hfals
        simpa [jsFalsyOrNonFinite] using hfals
      simp [resolveCssWidth, hq, hccw]
    | nonfinite => simp [resolveCssWidth, hccw]
  · intro hfals hccw
    cases hcase : env.containerWidth with
    | fin q =>
      have hq : q = 0 := by
        rw [hcase] at hfals
        simpa [jsFalsyOrNonFinite] using hfals
      simp [resolveCssWidth, hq, hccw]
    | nonfinite => simp [resolveCssWidth, hccw]

/-- Witness for `css_width_fallback_scale_positive`: container width 0, canvas
client width 300, intrinsic width 200, so the scale falls back to 300/200. -/
theorem css_width_fallback_scale_positive_witness :
    (({ containerWidth := JsNum.fin 0, canvasClientWidth := 300, dpr := 1,
        page := { intrinsicWidth := 200, intrinsicHeight := 100 },
        getPageResult := Except.ok (), rasterResult := Except.ok (),
        textResult := Except.ok (), annotationsResult := Except.ok (),
        progressBarPresent := true, numPages := 5 : RenderEnv }).getPageResult
       = Except.ok ()) ∧
    (0 : ℚ) ≤ 300 ∧ (0 : ℚ) < 200 ∧
    (0 < resolveCssWidth (JsNum.fin 0) 300 200 / 200) := by
  refine ⟨rfl, by norm_num, by norm_num, ?_⟩
  have h := css_width_fallback_scale_positive 2
    { containerWidth := JsNum.fin 0, canvasClientWidth := 300, dpr := 1,
      page := { intrinsicWidth := 200, intrinsicHeight := 100 },
      getPageResult := Except.ok (), rasterResult := Except.ok (),
      textResult := Except.ok (), annotationsResult := Except.ok (),
      progressBarPresent := true, numPages := 5 } rfl
    (by intro q hq; injection hq with h'; rw [← h'])
    (by norm_num) (by norm_num)
  exact h.2.2.2

/-- Claim C10: the static `Events` accessor returns the pair of distinct string
identifiers, hyphen-separated for the before event and underscore-separated for
the after event, and these exact strings are the only event types `renderPage`
dispatches on the container (and both are dispatched on every render with a
loaded document). -/
theorem event_identifiers (pageNumber : Nat) (env : RenderEnv) :
    Events.before_pdf_rendering = "before-pdf-rendering" ∧
    Events.after_pdf_rendering = "after_pdf_rendering" ∧
    Events.before_pdf_rendering ≠ Events.after_pdf_rendering ∧
    REv.dispatch Events.before_pdf_rendering ∈ (renderPage true pageNumber env).log ∧
    REv.dispatch Events.after_pdf_rendering ∈ (renderPage true pageNumber env).log ∧
    ∀ ty, REv.dispatch ty ∈ (renderPage true pageNumber env).log →
      ty = Events.before_pdf_rendering ∨ ty = Events.after_pdf_rendering := by
  refine ⟨rfl, rfl, by decide, ?_, ?_, ?_⟩ <;>
    obtain ⟨cw, ccw, d, pg, gp, rr, tr, ar, pb, np⟩ := env
  · cases gp <;> cases rr <;> cases tr <;> cases ar <;> simp [renderPage]
  · cases gp <;> cases rr <;> cases tr <;> cases ar <;> simp [renderPage]
  · intro ty hty
    cases gp <;> cases rr <;> cases tr <;> cases ar <;> cases pb <;>
      simp [renderPage, Events, updateProgress] at hty ⊢ <;> tauto

/-- Witness for `event_identifiers` at a concrete environment: the log of a
fully successful render dispatches exactly the two identifiers. -/
theorem event_identifiers_witness :
    REv.dispatch "before-pdf-rendering" ∈ (renderPage true 1
      { containerWidth := JsNum.fin 400, canvasClientWidth := 0, dpr := 1,
        page := { intrinsicWidth := 200, intrinsicHeight := 100 },
        getPageResult := Except.ok (), rasterResult := Except.ok (),
        textResult := Except.ok (), annotationsResult := Except.ok (),
        progressBarPresent := false, numPages := 5 }).log ∧
    REv.dispatch "after_pdf_rendering" ∈ (renderPage true 1
      { containerWidth := JsNum.fin 400, canvasClientWidth := 0, dpr := 1,
        page := { intrinsicWidth := 200, intrinsicHeight := 100 },
        getPageResult := Except.ok (), rasterResult := Except.ok (),
        textResult := Except.ok (), annotationsResult := Except.ok (),
        progressBarPresent := false, numPages := 5 }).log := by
  have h := event_identifiers 1
    { containerWidth := JsNum.fin 400, canvasClientWidth := 0, dpr := 1,
      page := { intrinsicWidth := 200, intrinsicHeight := 100 },
      getPageResult := Except.ok (), rasterResult := Except.ok (),
      textResult := Except.ok (), annotationsResult := Except.ok (),
      progressBarPresent := false, numPages := 5 }
  exact ⟨h.2.2.2.1, h.2.2.2.2.1⟩

end PDFJSController

namespace PDFJSController.Queue

theorem pget_append_lt (ps l : List (Option PRes)) (p : Nat) (h : p < ps.length) :
    pget (ps ++ l) p = pget ps p := by
  induction ps generalizing p with
  | nil => simp at h
  | cons x xs ih =>
    cases p with
    | zero => rfl
    | succ n => exact ih n (by simpa using h)

theorem pget_append_right (ps l : List (Option PRes)) (i : Nat) :
    pget (ps ++ l) (ps.length + i) = pget l i := by
  induction ps with
  | nil => simp [pget]
  | cons x xs ih => simpa [pget, Nat.succ_add] using ih

theorem pget_ge (ps : List (Option PRes)) (p : Nat) (h : ps.length ≤ p) :
    pget ps p = none := by
  induction ps generalizing p with
  | nil => cases p <;> rfl
  | cons x xs ih =>
    cases p with
    | zero => simp at h
    | succ n => exact ih n (by simpa using h)

theorem length_pset (ps : List (Option PRes)) (n : Nat) (v : PRes) :
    (pset ps n v).length = ps.length := by
  induction ps generalizing n with
  | nil => rfl
  | cons x xs ih => cases n <;> simp [pset, ih]

theorem pget_pset_self (ps : List (Option PRes)) (n : Nat) (v : PRes)
    (h : n < ps.length) : pget (pset ps n v) n = some v := by
  induction ps generalizing n with
  | nil => simp at h
  | cons x xs ih =>
    cases n with
    | zero => rfl
    | succ m => exact ih m (by simpa using h)

theorem pget_pset_ne (ps : List (Option PRes)) (n m : Nat) (v : PRes)
    (h : n ≠ m) : pget (pset ps n v) m = pget ps m := by
  induction ps generalizing n m with
  | nil => rfl
  | cons x xs ih =>
    cases n with
    | zero => cases m with
      | zero => exact absurd rfl h
      | succ m' => rfl
    | succ n' =>
      cases m with
      | zero => rfl
      | succ m' => exact ih n' m' (by omega)

theorem extractFirst_length (p : Reaction → Bool) (l : List Reaction)
    (r : Reaction) (rest : List Reaction) (h : extractFirst p l = some (r, rest)) :
    rest.length + 1 = l.length := by
  induction l generalizing r rest with
  | nil => simp [extractFirst] at h
  | cons x xs ih =>
    by_cases hx : p x
    · simp [extractFirst, hx] at h
      obtain ⟨h1, h2⟩ := h
      subst h2
      rfl
    · simp only [extractFirst, hx, if_false, Bool.false_eq_true] at h
      cases hrec : extractFirst p xs with
      | none => rw [hrec] at h; simp at h
      | some pr =>
        obtain ⟨r', rs'⟩ := pr
        rw [hrec] at h
        simp at h
        obtain ⟨h1, h2⟩ := h
        subst h1 h2
        have := ih r' rs' hrec
        simp [← this]

theorem extractFirst_none (p : Reaction → Bool) (l : List Reaction)
    (h : ∀ r ∈ l, p r = false) : extractFirst p l = none := by
  induction l with
  | nil => rfl
  | cons x xs ih =>
    have hx := h x (by simp)
    have hxs : ∀ r ∈ xs, p r = false := fun r hr => h r (by simp [hr])
    simp [extractFirst, hx, ih hxs]

theorem fireOne_length (s s' : QState) (h : fireOne s = some s') :
    s'.reactions.length + 1 = s.reactions.length := by
  cases hx : extractFirst (fireableL s.pstates) s.reactions with
  | none => simp only [fireOne, hx] at h; exact Option.noConfusion h
  | some pr =>
    obtain ⟨r, rest⟩ := pr
    have hlen := extractFirst_length _ _ _ _ hx
    cases r with
    | thenRender src k pg tgt =>
      cases hp : pget s.pstates src with
      | none => simp only [fireOne, hx, hp] at h; exact Option.noConfusion h
      | some v =>
        cases v <;> simp only [fireOne, hx, hp] at h <;>
          injection h with h' <;> subst h' <;> simpa using hlen
    | catchReset src tgt =>
      cases hp : pget s.pstates src with
      | none => simp only [fireOne, hx, hp] at h; exact Option.noConfusion h
      | some v =>
        cases v <;> simp only [fireOne, hx, hp] at h <;>
          injection h with h' <;> subst h' <;> simpa using hlen

theorem drain_none (s : QState) (h : fireOne s = none) : drain s = s := by
  unfold drain
  cases hl : s.reactions.length with
  | zero => rfl
  | succ n => simp [drainAux, h]

theorem drain_some (s s' : QState) (h : fireOne s = some s') : drain s = drain s' := by
  have hlen := fireOne_length s s' h
  unfold drain
  rw [← hlen]
  simp [drainAux, h]

theorem drain_no_fire (s : QState)
    (h : ∀ r ∈ s.reactions, fireableL s.pstates r = false) : drain s = s := by
  apply drain_none
  unfold fireOne
  rw [extractFirst_none _ _ h]

theorem autoRun_append (st : Option Nat × Nat) (l1 l2 : List QEv) :
    autoRun st (l1 ++ l2)
      = (autoRun st l1).bind (fun st' => autoRun st' l2) := by
  induction l1 generalizing st with
  | nil => simp [autoRun]
  | cons e es ih =>
    simp only [List.cons_append, autoRun]
    cases autoStep st e with
    | none => rfl
    | some st' => exact ih st'

theorem autoRun_replicate_reset (st : Option Nat × Nat) (m : Nat) :
    autoRun st (List.replicate m QEv.reset) = some st := by
  induction m with
  | zero => rfl
  | succ n ih => simpa [List.replicate_succ, autoRun, autoStep] using ih

end PDFJSController.Queue

namespace PDFJSController.Queue

theorem chainPending_append (ps l : List (Option PRes)) :
    ∀ es prev, chainPending ps prev es → chainPending (ps ++ l) prev es := by
  intro es
  induction es with
  | nil => intro prev h; trivial
  | cons e rest ih =>
    obtain ⟨k, pg, t1, t2⟩ := e
    intro prev h
    obtain ⟨h1, h2, h3, h4, h5, h6⟩ := h
    refine ⟨h1, h2, by simp; omega, ?_, ?_, ih t2 h6⟩
    · rw [pget_append_lt ps l t1 (by omega)]; exact h4
    · rw [pget_append_lt ps l t2 h3]; exact h5

theorem chainPending_pset (ps : List (Option PRes)) :
    ∀ es prev q v, q ≤ prev → chainPending ps prev es →
      chainPending (pset ps q v) prev es := by
  intro es
  induction es with
  | nil => intro prev q v hq h; trivial
  | cons e rest ih =>
    obtain ⟨k, pg, t1, t2⟩ := e
    intro prev q v hq h
    obtain ⟨h1, h2, h3, h4, h5, h6⟩ := h
    refine ⟨h1, h2, by rw [length_pset]; exact h3, ?_, ?_, ih t2 q v (by omega) h6⟩
    · rw [pget_pset_ne ps q t1 v (by omega)]; exact h4
    · rw [pget_pset_ne ps q t2 v (by omega)]; exact h5

theorem entriesWF_chainPending (ps : List (Option PRes)) :
    ∀ es k0 prev pq nr, entriesWF ps k0 prev es pq nr → chainPending ps prev es := by
  intro es
  induction es with
  | nil => intro k0 prev pq nr h; trivial
  | cons e rest ih =>
    obtain ⟨k, pg, t1, t2⟩ := e
    intro k0 prev pq nr h
    obtain ⟨h1, h2, h3, h4, h5, h6, h7⟩ := h
    exact ⟨h2, h3, h4, h5, h6, ih _ _ _ _ h7⟩

theorem entriesWF_append (ps l : List (Option PRes)) :
    ∀ es k0 prev pq nr, entriesWF ps k0 prev es pq nr →
      entriesWF (ps ++ l) k0 prev es pq nr := by
  intro es
  induction es with
  | nil => intro k0 prev pq nr h; exact h
  | cons e rest ih =>
    obtain ⟨k, pg, t1, t2⟩ := e
    intro k0 prev pq nr h
    obtain ⟨h1, h2, h3, h4, h5, h6, h7⟩ := h
    refine ⟨h1, h2, h3, by simp; omega, ?_, ?_, ih _ _ _ _ h7⟩
    · rw [pget_append_lt ps l t1 (by omega)]; exact h5
    · rw [pget_append_lt ps l t2 h4]; exact h6

theorem entriesWF_pset (ps : List (Option PRes)) :
    ∀ es k0 prev pq nr q v, q ≤ prev → entriesWF ps k0 prev es pq nr →
      entriesWF (pset ps q v) k0 prev es pq nr := by
  intro es
  induction es with
  | nil => intro k0 prev pq nr q v hq h; exact h
  | cons e rest ih =>
    obtain ⟨k, pg, t1, t2⟩ := e
    intro k0 prev pq nr q v hq h
    obtain ⟨h1, h2, h3, h4, h5, h6, h7⟩ := h
    refine ⟨h1, h2, h3, by rw [length_pset]; exact h4, ?_, ?_,
      ih _ _ _ _ q v (by omega) h7⟩
    · rw [pget_pset_ne ps q t1 v (by omega)]; exact h5
    · rw [pget_pset_ne ps q t2 v (by omega)]; exact h6

theorem entriesWF_pq_pending (ps : List (Option PRes)) :
    ∀ es k0 prev pq nr, entriesWF ps k0 prev es pq nr → pget ps prev = none →
      pget ps pq = none := by
  intro es
  induction es with
  | nil => intro k0 prev pq nr h hp; rw [h.1]; exact hp
  | cons e rest ih =>
    obtain ⟨k, pg, t1, t2⟩ := e
    intro k0 prev pq nr h hp
    obtain ⟨h1, h2, h3, h4, h5, h6, h7⟩ := h
    exact ih _ _ _ _ h7 h6

theorem entriesWF_pq_lt (ps : List (Option PRes)) :
    ∀ es k0 prev pq nr, entriesWF ps k0 prev es pq nr → prev < ps.length →
      pq < ps.length := by
  intro es
  induction es with
  | nil => intro k0 prev pq nr h hp; rw [h.1]; exact hp
  | cons e rest ih =>
    obtain ⟨k, pg, t1, t2⟩ := e
    intro k0 prev pq nr h hp
    obtain ⟨h1, h2, h3, h4, h5, h6, h7⟩ := h
    exact ih _ _ _ _ h7 h4

theorem entriesWF_nr_ge (ps : List (Option PRes)) :
    ∀ es k0 prev pq nr, entriesWF ps k0 prev es pq nr → k0 ≤ nr := by
  intro es
  induction es with
  | nil => intro k0 prev pq nr h; have := h.2; omega
  | cons e rest ih =>
    obtain ⟨k, pg, t1, t2⟩ := e
    intro k0 prev pq nr h
    obtain ⟨h1, h2, h3, h4, h5, h6, h7⟩ := h
    have := ih _ _ _ _ h7
    omega

theorem chain_not_fireable (ps : List (Option PRes)) :
    ∀ es root, pget ps root = none → chainPending ps root es →
      ∀ r ∈ chainReacts root es, fireableL ps r = false := by
  intro es
  induction es with
  | nil => intro root hroot hp r hr; simp [chainReacts] at hr
  | cons e rest ih =>
    obtain ⟨k, pg, t1, t2⟩ := e
    intro root hroot hp r hr
    obtain ⟨h2, h3, h4, h5, h6, h7⟩ := hp
    simp only [chainReacts, List.mem_cons] at hr
    rcases hr with rfl | rfl | hr
    · simp [fireableL, rSrc, hroot]
    · simp [fireableL, rSrc, h5]
    · exact ih t2 h6 h7 r hr

theorem chainReacts_append (ek epg et1 et2 : Nat) :
    ∀ es root, chainReacts root (es ++ [(ek, epg, et1, et2)])
      = chainReacts root es ++ chainReacts (chainEnd root es) [(ek, epg, et1, et2)] := by
  intro es
  induction es with
  | nil => intro root; rfl
  | cons e' rest ih =>
    obtain ⟨k, pg, t1, t2⟩ := e'
    intro root
    show Reaction.thenRender root k pg t1 :: Reaction.catchReset t1 t2
        :: chainReacts t2 (rest ++ [(ek, epg, et1, et2)]) = _
    rw [ih t2]
    rfl

theorem entriesWF_chainEnd (ps : List (Option PRes)) :
    ∀ es k0 prev pq nr, entriesWF ps k0 prev es pq nr → chainEnd prev es = pq := by
  intro es
  induction es with
  | nil => intro k0 prev pq nr h; exact h.1.symm
  | cons e rest ih =>
    obtain ⟨k, pg, t1, t2⟩ := e
    intro k0 prev pq nr h
    obtain ⟨h1, h2, h3, h4, h5, h6, h7⟩ := h
    exact ih _ _ _ _ h7

theorem entriesWF_snoc (ps : List (Option PRes)) (pg : Nat) :
    ∀ es k0 prev pq nr, entriesWF ps k0 prev es pq nr → pq < ps.length →
      entriesWF (ps ++ [none, none]) k0 prev
        (es ++ [(nr, pg, ps.length, ps.length + 1)]) (ps.length + 1) (nr + 1) := by
  intro es
  induction es with
  | nil =>
    intro k0 prev pq nr h hlt
    obtain ⟨h1, h2⟩ := h
    subst h1 h2
    refine ⟨rfl, hlt, by omega, by simp, ?_, ?_, rfl, rfl⟩
    · have := pget_append_right ps [none, none] 0
      simpa using this
    · have := pget_append_right ps [none, none] 1
      simpa using this
  | cons e rest ih =>
    obtain ⟨k, pg', t1, t2⟩ := e
    intro k0 prev pq nr h hlt
    obtain ⟨h1, h2, h3, h4, h5, h6, h7⟩ := h
    refine ⟨h1, h2, h3, by simp; omega, ?_, ?_, ih _ _ _ _ h7 hlt⟩
    · rw [pget_append_lt ps _ t1 (by omega)]; exact h5
    · rw [pget_append_lt ps _ t2 h4]; exact h6

end PDFJSController.Queue

namespace PDFJSController.Queue

theorem pget_append_nones (ps : List (Option PRes)) (t : Nat) (h : pget ps t = none) :
    pget (ps ++ [none, none]) t = none := by
  by_cases hlt : t < ps.length
  · rw [pget_append_lt _ _ _ hlt]; exact h
  · have ht : t = ps.length + (t - ps.length) := by omega
    rw [ht, pget_append_right]
    rcases hi : t - ps.length with _ | _ | i <;> rfl

theorem fire_then_ok (ps : List (Option PRes)) (root k pg t1 : Nat) (rest' : List Reaction)
    (pq : Nat) (run : List (Nat × Nat)) (fut : List Nat) (nr : Nat) (tr : List QEv)
    (pn np : Nat) (dl : Bool) (hsrc : pget ps root = some PRes.ok) :
    fireOne ⟨ps, Reaction.thenRender root k pg t1 :: rest', pq, run, fut, nr, tr, pn, np, dl⟩
      = some ⟨ps, rest', pq, run ++ [(k, t1)], fut, nr, tr ++ [QEv.start k pg],
              pn, np, dl⟩ := by
  simp [fireOne, extractFirst, fireableL, rSrc, hsrc]

theorem fire_then_err (ps : List (Option PRes)) (root k pg t1 e : Nat)
    (rest' : List Reaction) (pq : Nat) (run : List (Nat × Nat)) (fut : List Nat)
    (nr : Nat) (tr : List QEv) (pn np : Nat) (dl : Bool)
    (hsrc : pget ps root = some (PRes.err e)) :
    fireOne ⟨ps, Reaction.thenRender root k pg t1 :: rest', pq, run, fut, nr, tr, pn, np, dl⟩
      = some ⟨pset ps t1 (PRes.err e), rest', pq, run, fut, nr, tr, pn, np, dl⟩ := by
  simp [fireOne, extractFirst, fireableL, rSrc, hsrc]

theorem fire_catch_ok (ps : List (Option PRes)) (t t2 : Nat) (rest' : List Reaction)
    (pq : Nat) (run : List (Nat × Nat)) (fut : List Nat) (nr : Nat) (tr : List QEv)
    (pn np : Nat) (dl : Bool) (hsrc : pget ps t = some PRes.ok) :
    fireOne ⟨ps, Reaction.catchReset t t2 :: rest', pq, run, fut, nr, tr, pn, np, dl⟩
      = some ⟨pset ps t2 PRes.ok, rest', pq, run, fut, nr, tr, pn, np, dl⟩ := by
  simp [fireOne, extractFirst, fireableL, rSrc, hsrc]

theorem fire_catch_err (ps : List (Option PRes)) (t t2 e : Nat) (rest' : List Reaction)
    (pq : Nat) (run : List (Nat × Nat)) (fut : List Nat) (nr : Nat) (tr : List QEv)
    (pn np : Nat) (dl : Bool) (hsrc : pget ps t = some (PRes.err e)) :
    fireOne ⟨ps, Reaction.catchReset t t2 :: rest', pq, run, fut, nr, tr, pn, np, dl⟩
      = some ⟨pset ps t2 (PRes.err e) ++ [some PRes.ok], rest', ps.length, run, fut, nr,
              tr ++ [QEv.reset], pn, np, dl⟩ := by
  simp [fireOne, extractFirst, fireableL, rSrc, hsrc]

end PDFJSController.Queue

namespace PDFJSController.Queue

theorem enqueue_start (ps : List (Option PRes)) (pq : Nat) (run : List (Nat × Nat))
    (fut : List Nat) (nr : Nat) (tr : List QEv) (pn np pg : Nat)
    (hpq : pget ps pq = some PRes.ok) (hpqlt : pq < ps.length) :
    drain (queueRenderPage ⟨ps, [], pq, run, fut, nr, tr, pn, np, true⟩ pg).1
      = ⟨ps ++ [none, none],
         [Reaction.catchReset ps.length (ps.length + 1)],
         ps.length + 1, run ++ [(nr, ps.length)], fut ++ [ps.length + 1], nr + 1,
         tr ++ [QEv.start nr pg], pn, np, true⟩ := by
  have hq : (queueRenderPage ⟨ps, [], pq, run, fut, nr, tr, pn, np, true⟩ pg).1
      = ⟨ps ++ [none, none],
         [Reaction.thenRender pq nr pg ps.length,
          Reaction.catchReset ps.length (ps.length + 1)],
         ps.length + 1, run, fut ++ [ps.length + 1], nr + 1, tr, pn, np, true⟩ := by
    simp [queueRenderPage]
  have hpq' : pget (ps ++ [none, none]) pq = some PRes.ok := by
    rw [pget_append_lt _ _ _ hpqlt]; exact hpq
  have hL : pget (ps ++ [none, none]) ps.length = none := by
    simpa using pget_append_right ps [none, none] 0
  have hf1 := fire_then_ok (ps ++ [none, none]) pq nr pg ps.length
    [Reaction.catchReset ps.length (ps.length + 1)] (ps.length + 1) run
    (fut ++ [ps.length + 1]) (nr + 1) tr pn np true hpq'
  have hf2 : fireOne ⟨ps ++ [none, none],
      [Reaction.catchReset ps.length (ps.length + 1)], ps.length + 1,
      run ++ [(nr, ps.length)], fut ++ [ps.length + 1], nr + 1,
      tr ++ [QEv.start nr pg], pn, np, true⟩ = none := by
    simp [fireOne, extractFirst, fireableL, rSrc, hL]
  rw [hq, drain_some _ _ hf1, drain_none _ hf2]

theorem enqueue_chain (ps : List (Option PRes)) (t t2 : Nat)
    (es : List (Nat × Nat × Nat × Nat)) (pq : Nat) (run : List (Nat × Nat))
    (fut : List Nat) (nr : Nat) (tr : List QEv) (pn np pg : Nat)
    (ht : pget ps t = none) (ht2 : pget ps t2 = none)
    (hch : chainPending ps t2 es) (hpq : pget ps pq = none) :
    drain (queueRenderPage
        ⟨ps, Reaction.catchReset t t2 :: chainReacts t2 es, pq, run, fut, nr, tr,
         pn, np, true⟩ pg).1
      = ⟨ps ++ [none, none],
         (Reaction.catchReset t t2 :: chainReacts t2 es) ++
           [Reaction.thenRender pq nr pg ps.length,
            Reaction.catchReset ps.length (ps.length + 1)],
         ps.length + 1, run, fut ++ [ps.length + 1], nr + 1, tr, pn, np, true⟩ := by
  have hq : (queueRenderPage
      ⟨ps, Reaction.catchReset t t2 :: chainReacts t2 es, pq, run, fut, nr, tr,
       pn, np, true⟩ pg).1
      = ⟨ps ++ [none, none],
         (Reaction.catchReset t t2 :: chainReacts t2 es) ++
           [Reaction.thenRender pq nr pg ps.length,
            Reaction.catchReset ps.length (ps.length + 1)],
         ps.length + 1, run, fut ++ [ps.length + 1], nr + 1, tr, pn, np, true⟩ := by
    simp [queueRenderPage]
  rw [hq]
  apply drain_no_fire
  intro r hr
  simp only [List.mem_append, List.mem_cons, List.not_mem_nil, or_false] at hr
  rcases hr with (rfl | hr) | rfl | rfl
  · simp [fireableL, rSrc, pget_append_nones ps t ht]
  · exact chain_not_fireable (ps ++ [none, none]) es t2
      (pget_append_nones ps t2 ht2) (chainPending_append ps [none, none] es t2 hch) r hr
  · simp [fireableL, rSrc, pget_append_nones ps pq hpq]
  · have hL : pget (ps ++ [none, none]) ps.length = none := by
      simpa using pget_append_right ps [none, none] 0
    simp [fireableL, rSrc, hL]

theorem drain_chain_ok_cons (ps : List (Option PRes)) (root k pg t1 t2 : Nat)
    (rest : List (Nat × Nat × Nat × Nat)) (pq : Nat) (fut : List Nat) (nr : Nat)
    (tr : List QEv) (pn np : Nat) (dl : Bool)
    (hroot : pget ps root = some PRes.ok)
    (ht1 : pget ps t1 = none) (ht2 : pget ps t2 = none)
    (hch : chainPending ps t2 rest) :
    drain ⟨ps, chainReacts root ((k, pg, t1, t2) :: rest), pq, [], fut, nr, tr,
           pn, np, dl⟩
      = ⟨ps, Reaction.catchReset t1 t2 :: chainReacts t2 rest, pq, [(k, t1)], fut, nr,
         tr ++ [QEv.start k pg], pn, np, dl⟩ := by
  have hf1 := fire_then_ok ps root k pg t1
    (Reaction.catchReset t1 t2 :: chainReacts t2 rest) pq [] fut nr tr pn np dl hroot
  simp only [List.nil_append] at hf1
  have hnofire : ∀ r ∈ Reaction.catchReset t1 t2 :: chainReacts t2 rest,
      fireableL ps r = false := by
    intro r hr
    rcases List.mem_cons.1 hr with rfl | hr
    · simp [fireableL, rSrc, ht1]
    · exact chain_not_fireable ps rest t2 ht2 hch r hr
  have hf2 : fireOne ⟨ps, Reaction.catchReset t1 t2 :: chainReacts t2 rest, pq,
      [(k, t1)], fut, nr, tr ++ [QEv.start k pg], pn, np, dl⟩ = none := by
    unfold fireOne
    rw [extractFirst_none _ _ hnofire]
  have : chainReacts root ((k, pg, t1, t2) :: rest)
      = Reaction.thenRender root k pg t1 :: Reaction.catchReset t1 t2
        :: chainReacts t2 rest := rfl
  rw [this, drain_some _ _ hf1, drain_none _ hf2]

theorem drain_chain_err :
    ∀ (es : List (Nat × Nat × Nat × Nat)) (ps : List (Option PRes)) (root e pq : Nat)
      (fut : List Nat) (nr : Nat) (tr : List QEv) (pn np : Nat) (dl : Bool),
      pget ps root = some (PRes.err e) → chainPending ps root es →
      pget ps pq = some PRes.ok → pq < ps.length →
      ∃ ps' pq' m,
        drain ⟨ps, chainReacts root es, pq, [], fut, nr, tr, pn, np, dl⟩
          = ⟨ps', [], pq', [], fut, nr, tr ++ List.replicate m QEv.reset, pn, np, dl⟩ ∧
        pget ps' pq' = some PRes.ok ∧ pq' < ps'.length := by
  intro es
  induction es with
  | nil =>
    intro ps root e pq fut nr tr pn np dl hroot hch hpq hpqlt
    refine ⟨ps, pq, 0, ?_, hpq, hpqlt⟩
    simp [drain, chainReacts, drainAux]
  | cons ent rest ih =>
    obtain ⟨k, pg, t1, t2⟩ := ent
    intro ps root e pq fut nr tr pn np dl hroot hch hpq hpqlt
    obtain ⟨h2, h3, h4, h5, h6, h7⟩ := hch
    have hf1 := fire_then_err ps root k pg t1 e
      (Reaction.catchReset t1 t2 :: chainReacts t2 rest) pq [] fut nr tr pn np dl hroot
    have ht1' : pget (pset ps t1 (PRes.err e)) t1 = some (PRes.err e) :=
      pget_pset_self ps t1 _ (by omega)
    have hf2 := fire_catch_err (pset ps t1 (PRes.err e)) t1 t2 e
      (chainReacts t2 rest) pq [] fut nr tr pn np dl ht1'
    set ps2 := pset (pset ps t1 (PRes.err e)) t2 (PRes.err e) ++ [some PRes.ok] with hps2
    have hlen1 : (pset ps t1 (PRes.err e)).length = ps.length := length_pset ps t1 _
    have hlen2 : (pset (pset ps t1 (PRes.err e)) t2 (PRes.err e)).length = ps.length := by
      rw [length_pset, hlen1]
    have hroot2 : pget ps2 t2 = some (PRes.err e) := by
      rw [hps2, pget_append_lt _ _ _ (by omega)]
      exact pget_pset_self _ t2 _ (by omega)
    have hch2 : chainPending ps2 t2 rest := by
      rw [hps2]
      exact chainPending_append _ _ rest t2
        (chainPending_pset _ rest t2 t2 _ (le_refl t2)
          (chainPending_pset _ rest t2 t1 _ (by omega) h7))
    have hpq2 : pget ps2 (pset ps t1 (PRes.err e)).length = some PRes.ok := by
      rw [hps2, hlen1, ← hlen2]
      simpa using pget_append_right (pset (pset ps t1 (PRes.err e)) t2 (PRes.err e))
        [some PRes.ok] 0
    have hpqlt2 : (pset ps t1 (PRes.err e)).length < ps2.length := by
      rw [hps2]
      simp [hlen1, hlen2]
    obtain ⟨ps', pq', m, hdrain, hok, hlt⟩ :=
      ih ps2 t2 e (pset ps t1 (PRes.err e)).length fut nr (tr ++ [QEv.reset]) pn np dl
        hroot2 hch2 hpq2 hpqlt2
    refine ⟨ps', pq', m + 1, ?_, hok, hlt⟩
    have hcr : chainReacts root ((k, pg, t1, t2) :: rest)
        = Reaction.thenRender root k pg t1 :: Reaction.catchReset t1 t2
          :: chainReacts t2 rest := rfl
    rw [hcr, drain_some _ _ hf1, drain_some _ _ hf2, hdrain]
    have : (tr ++ [QEv.reset]) ++ List.replicate m QEv.reset
        = tr ++ List.replicate (m + 1) QEv.reset := by
      rw [List.append_assoc]
      congr 1
    simp [this]

end PDFJSController.Queue

namespace PDFJSController.Queue

theorem inv_drain_self (s : QState) (h : Inv s) : drain s = s := by
  obtain ⟨ps, rs, pq, run, fut, nr, tr, pn, np, dl⟩ := s
  obtain ⟨hfut, hpqlt, hrest⟩ := h
  match run with
  | [] =>
    obtain ⟨hreacts, hpq, lo, hauto, hlo⟩ := hrest
    subst hreacts
    simp [drain, drainAux]
  | [(j, t)] =>
    obtain ⟨hauto, hjnr, htlt, ht, t2, es, htt2, ht2lt, ht2, hreacts, hwf⟩ := hrest
    subst hreacts
    apply drain_no_fire
    intro r hr
    rcases List.mem_cons.1 hr with rfl | hr
    · simpa [fireableL, rSrc] using ht
    · exact chain_not_fireable ps es t2 ht2 (entriesWF_chainPending ps es _ _ _ _ hwf) r hr
  | (a :: b :: rest) => exact absurd hrest (by simp)

theorem inv_queueRenderPage (ps : List (Option PRes)) (rs : List Reaction)
    (pq : Nat) (run : List (Nat × Nat)) (fut : List Nat) (nr : Nat) (tr : List QEv)
    (pn np : Nat) (dl : Bool) (pg : Nat)
    (h : Inv ⟨ps, rs, pq, run, fut, nr, tr, pn, np, dl⟩) :
    Inv (drain (queueRenderPage ⟨ps, rs, pq, run, fut, nr, tr, pn, np, dl⟩ pg).1) := by
  cases dl with
  | false =>
    have hq : (queueRenderPage ⟨ps, rs, pq, run, fut, nr, tr, pn, np, false⟩ pg).1
        = ⟨ps, rs, pq, run, fut, nr, tr, pn, np, false⟩ := by
      simp [queueRenderPage]
    rw [hq, inv_drain_self _ h]
    exact h
  | true =>
    obtain ⟨hfut, hpqlt, hrest⟩ := h
    dsimp only at hfut hpqlt hrest
    match run with
    | [] =>
      obtain ⟨hreacts, hpq, lo, hauto, hlo⟩ := hrest
      dsimp only [getP] at hpq hauto
      subst hreacts
      rw [enqueue_start ps pq [] fut nr tr pn np pg hpq hpqlt]
      refine ⟨?_, ?_, ?_, ?_, ?_, ?_, ps.length + 1, [], ?_, ?_, ?_, rfl, rfl, rfl⟩
      · dsimp only; simpa using hfut
      · dsimp only; simp
      · dsimp only
        rw [autoRun_append, hauto]
        simp [autoRun, autoStep, hlo]
      · dsimp only; omega
      · dsimp only; simp
      · dsimp only [getP]
        have := pget_append_right ps [none, none] 0
        simpa using this
      · omega
      · dsimp only; simp
      · dsimp only [getP]
        have := pget_append_right ps [none, none] 1
        simpa using this
    | [(j, t)] =>
      obtain ⟨hauto, hjnr, htlt, ht, t2, es, htt2, ht2lt, ht2, hreacts, hwf⟩ := hrest
      dsimp only [getP] at hauto ht ht2 hwf
      subst hreacts
      have hpq : pget ps pq = none := entriesWF_pq_pending ps es _ _ _ _ hwf ht2
      rw [enqueue_chain ps t t2 es pq [(j, t)] fut nr tr pn np pg ht ht2
        (entriesWF_chainPending ps es _ _ _ _ hwf) hpq]
      have hend : chainEnd t2 es = pq := entriesWF_chainEnd ps es _ _ _ _ hwf
      have hreacts2 : (Reaction.catchReset t t2 :: chainReacts t2 es) ++
          [Reaction.thenRender pq nr pg ps.length,
           Reaction.catchReset ps.length (ps.length + 1)]
          = Reaction.catchReset t t2
            :: chainReacts t2 (es ++ [(nr, pg, ps.length, ps.length + 1)]) := by
        rw [chainReacts_append nr pg ps.length (ps.length + 1) es t2, hend]
        rfl
      refine ⟨?_, ?_, ?_⟩
      · dsimp only; simpa using hfut
      · dsimp only; simp
      · dsimp only
        rw [hreacts2]
        refine ⟨hauto, by omega, by simp; omega, ?_, t2,
          es ++ [(nr, pg, ps.length, ps.length + 1)], htt2, by simp; omega, ?_, rfl, ?_⟩
        · dsimp only [getP]
          exact pget_append_nones ps t ht
        · dsimp only [getP]
          exact pget_append_nones ps t2 ht2
        · exact entriesWF_snoc ps pg es _ _ _ _ hwf hpqlt
    | (a :: b :: rest) => exact absurd hrest (by simp)

end PDFJSController.Queue

namespace PDFJSController.Queue

theorem inv_finish (ps : List (Option PRes)) (rs : List Reaction)
    (pq : Nat) (run : List (Nat × Nat)) (fut : List Nat) (nr : Nat) (tr : List QEv)
    (pn np : Nat) (dl : Bool) (b : Bool)
    (h : Inv ⟨ps, rs, pq, run, fut, nr, tr, pn, np, dl⟩) :
    Inv (drain (finishStep ⟨ps, rs, pq, run, fut, nr, tr, pn, np, dl⟩ b)) := by
  obtain ⟨hfut, hpqlt, hrest⟩ := h
  dsimp only at hfut hpqlt hrest
  match run with
  | [] =>
    obtain ⟨hreacts, hpq, lo, hauto, hlo⟩ := hrest
    dsimp only [getP] at hpq
    subst hreacts
    have hfin : finishStep ⟨ps, [], pq, [], fut, nr, tr, pn, np, dl⟩ b
        = ⟨ps, [], pq, [], fut, nr, tr, pn, np, dl⟩ := rfl
    have hdr : drain ⟨ps, [], pq, [], fut, nr, tr, pn, np, dl⟩
        = ⟨ps, [], pq, [], fut, nr, tr, pn, np, dl⟩ := by
      simp [drain, drainAux]
    rw [hfin, hdr]
    exact ⟨hfut, hpqlt, rfl, hpq, lo, hauto, hlo⟩
  | [(j, t)] =>
    obtain ⟨hauto, hjnr, htlt, ht, t2, es, htt2, ht2lt, ht2, hreacts, hwf⟩ := hrest
    dsimp only [getP] at hauto ht ht2
    subst hreacts
    cases b with
    | true =>
      have hfin : finishStep ⟨ps, Reaction.catchReset t t2 :: chainReacts t2 es, pq,
          [(j, t)], fut, nr, tr, pn, np, dl⟩ true
          = ⟨pset ps t PRes.ok, Reaction.catchReset t t2 :: chainReacts t2 es, pq, [],
             fut, nr, tr ++ [QEv.finish j PRes.ok], pn, np, dl⟩ := rfl
      rw [hfin]
      have hcatch := fire_catch_ok (pset ps t PRes.ok) t t2 (chainReacts t2 es) pq []
        fut nr (tr ++ [QEv.finish j PRes.ok]) pn np dl (pget_pset_self ps t _ htlt)
      rw [drain_some _ _ hcatch]
      have hlen1 : (pset ps t PRes.ok).length = ps.length := length_pset ps t _
      have hlen2 : (pset (pset ps t PRes.ok) t2 PRes.ok).length = ps.length := by
        rw [length_pset, hlen1]
      have hpt2 : pget (pset (pset ps t PRes.ok) t2 PRes.ok) t2 = some PRes.ok :=
        pget_pset_self _ t2 _ (by omega)
      have hauto2 : autoRun (none, 0) (tr ++ [QEv.finish j PRes.ok])
          = some (none, j + 1) := by
        rw [autoRun_append, hauto]
        simp [autoRun, autoStep]
      match es, hwf with
      | [], ⟨hpqt2, hnrj⟩ =>
        have hdr : drain ⟨pset (pset ps t PRes.ok) t2 PRes.ok, chainReacts t2 [], pq,
            [], fut, nr, tr ++ [QEv.finish j PRes.ok], pn, np, dl⟩
            = ⟨pset (pset ps t PRes.ok) t2 PRes.ok, [], pq, [], fut, nr,
               tr ++ [QEv.finish j PRes.ok], pn, np, dl⟩ := by
          simp [drain, chainReacts, drainAux]
        rw [hdr]
        refine ⟨hfut, by dsimp only; omega, rfl, ?_, j + 1, hauto2, hjnr⟩
        dsimp only [getP]
        rw [hpqt2]
        exact hpt2
      | (k, pg, t1', t2') :: rest, ⟨hk, h2, h3, h4, h5, h6, h7⟩ =>
        subst hk
        have ht1' : pget (pset (pset ps t PRes.ok) t2 PRes.ok) t1' = none := by
          rw [pget_pset_ne _ _ _ _ (by omega), pget_pset_ne _ _ _ _ (by omega)]
          exact h5
        have ht2' : pget (pset (pset ps t PRes.ok) t2 PRes.ok) t2' = none := by
          rw [pget_pset_ne _ _ _ _ (by omega), pget_pset_ne _ _ _ _ (by omega)]
          exact h6
        have hch : chainPending (pset (pset ps t PRes.ok) t2 PRes.ok) t2' rest := by
          apply chainPending_pset _ _ _ _ _ (by omega)
          apply chainPending_pset _ _ _ _ _ (by omega)
          exact entriesWF_chainPending ps rest _ _ _ _ h7
        have hdr := drain_chain_ok_cons (pset (pset ps t PRes.ok) t2 PRes.ok) t2
          (j + 1) pg t1' t2' rest pq fut nr (tr ++ [QEv.finish j PRes.ok]) pn np dl
          hpt2 ht1' ht2' hch
        rw [hdr]
        refine ⟨hfut, by dsimp only; omega, ?_⟩
        dsimp only
        refine ⟨?_, ?_, by omega, ?_, t2', rest, h3, by omega, ?_, rfl, ?_⟩
        · rw [autoRun_append, hauto2]
          simp [autoRun, autoStep]
        · have := entriesWF_nr_ge ps rest _ _ _ _ h7
          omega
        · dsimp only [getP]
          exact ht1'
        · dsimp only [getP]
          exact ht2'
        · apply entriesWF_pset _ _ _ _ _ _ _ _ (by omega)
          apply entriesWF_pset _ _ _ _ _ _ _ _ (by omega)
          exact h7
    | false =>
      have hfin : finishStep ⟨ps, Reaction.catchReset t t2 :: chainReacts t2 es, pq,
          [(j, t)], fut, nr, tr, pn, np, dl⟩ false
          = ⟨pset ps t (PRes.err j), Reaction.catchReset t t2 :: chainReacts t2 es, pq,
             [], fut, nr, tr ++ [QEv.finish j (PRes.err j)], pn, np, dl⟩ := rfl
      rw [hfin]
      have hcatch := fire_catch_err (pset ps t (PRes.err j)) t t2 j (chainReacts t2 es)
        pq [] fut nr (tr ++ [QEv.finish j (PRes.err j)]) pn np dl
        (pget_pset_self ps t _ htlt)
      rw [drain_some _ _ hcatch]
      have hlen1 : (pset ps t (PRes.err j)).length = ps.length := length_pset ps t _
      have hlen2 : (pset (pset ps t (PRes.err j)) t2 (PRes.err j)).length = ps.length := by
        rw [length_pset, hlen1]
      have hroot2 : pget (pset (pset ps t (PRes.err j)) t2 (PRes.err j) ++ [some PRes.ok])
          t2 = some (PRes.err j) := by
        rw [pget_append_lt _ _ _ (by omega)]
        exact pget_pset_self _ t2 _ (by omega)
      have hch2 : chainPending
          (pset (pset ps t (PRes.err j)) t2 (PRes.err j) ++ [some PRes.ok]) t2 es := by
        apply chainPending_append
        apply chainPending_pset _ _ _ _ _ (le_refl t2)
        apply chainPending_pset _ _ _ _ _ (by omega)
        exact entriesWF_chainPending ps es _ _ _ _ hwf
      have hpq2 : pget (pset (pset ps t (PRes.err j)) t2 (PRes.err j) ++ [some PRes.ok])
          (pset ps t (PRes.err j)).length = some PRes.ok := by
        rw [hlen1, ← hlen2]
        simpa using pget_append_right
          (pset (pset ps t (PRes.err j)) t2 (PRes.err j)) [some PRes.ok] 0
      have hpq2lt : (pset ps t (PRes.err j)).length
          < (pset (pset ps t (PRes.err j)) t2 (PRes.err j) ++ [some PRes.ok]).length := by
        simp [hlen1, hlen2]
      obtain ⟨ps', pq', m, hdrain, hok', hlt'⟩ := drain_chain_err es
        (pset (pset ps t (PRes.err j)) t2 (PRes.err j) ++ [some PRes.ok]) t2 j
        (pset ps t (PRes.err j)).length fut nr
        ((tr ++ [QEv.finish j (PRes.err j)]) ++ [QEv.reset]) pn np dl
        hroot2 hch2 hpq2 hpq2lt
      rw [hdrain]
      refine ⟨hfut, by dsimp only; omega, rfl, ?_, j + 1, ?_, hjnr⟩
      · dsimp only [getP]
        exact hok'
      · dsimp only
        rw [autoRun_append, autoRun_append, autoRun_append, hauto]
        simp [autoRun, autoStep, autoRun_replicate_reset]

end PDFJSController.Queue

namespace PDFJSController.Queue

theorem inv_stepCmd (s : QState) (c : Cmd) (h : Inv s) : Inv (stepCmd s c) := by
  obtain ⟨ps, rs, pq, run, fut, nr, tr, pn, np, dl⟩ := s
  cases c with
  | finish b => exact inv_finish ps rs pq run fut nr tr pn np dl b h
  | op o =>
    cases o with
    | fit => exact inv_queueRenderPage ps rs pq run fut nr tr pn np dl pn h
    | loadRender => exact inv_queueRenderPage ps rs pq run fut nr tr pn np dl pn h
    | next =>
      dsimp only [stepCmd, doCOp, nextPage]
      split
      · dsimp only
        rw [inv_drain_self _ h]
        exact h
      · exact inv_queueRenderPage ps rs pq run fut nr tr (pn + 1) np dl (pn + 1) h
    | prev =>
      dsimp only [stepCmd, doCOp, prevPage]
      split
      · dsimp only
        rw [inv_drain_self _ h]
        exact h
      · exact inv_queueRenderPage ps rs pq run fut nr tr (pn - 1) np dl (pn - 1) h

theorem inv_initState (p n : Nat) (doc : Bool) : Inv (initState p n doc) := by
  exact ⟨rfl, by simp [initState], rfl, rfl, 0, rfl, by omega⟩

theorem inv_runCmds (cs : List Cmd) : ∀ s, Inv s → Inv (runCmds s cs) := by
  induction cs with
  | nil => intro s h; exact h
  | cons c cs ih => intro s h; exact ih _ (inv_stepCmd s c h)

/-- Claim C1: for every interleaving of `fitItSize`, `nextPage`, `prevPage`, the
initial `loadDocument` render, and render completions, the trace of the promise
queue is serialized: the automaton `autoRun` accepts it, meaning a `renderPage`
call starts only when no other is in flight (renders never overlap), the
indices of started renders are strictly increasing (so the executions happen in
the order the renders were enqueued), and each start happens only after every
earlier-started render has settled. -/
theorem renders_execute_serially (p n : Nat) (cs : List Cmd) :
    (autoRun (none, 0) (runCmds (initState p n true) cs).trace).isSome = true := by
  obtain ⟨hfut, hpqlt, hrest⟩ :=
    inv_runCmds cs (initState p n true) (inv_initState p n true)
  rcases hrun : (runCmds (initState p n true) cs).running with _ | ⟨⟨j, t⟩, rest⟩
  · rw [hrun] at hrest
    dsimp only at hrest
    obtain ⟨_, _, lo, hauto, _⟩ := hrest
    rw [hauto]
    rfl
  · rw [hrun] at hrest
    rcases rest with _ | ⟨x, rest'⟩
    · dsimp only at hrest
      obtain ⟨hauto, _⟩ := hrest
      rw [hauto]
      rfl
    · exact absurd hrest (by simp)

end PDFJSController.Queue

namespace PDFJSController.Queue

theorem fireOne_frame (s s' : QState) (h : fireOne s = some s') :
    s'.pageNum = s.pageNum ∧ s'.numPages = s.numPages ∧
    s'.docLoaded = s.docLoaded ∧ s'.futures = s.futures ∧
    s'.nextRender = s.nextRender := by
  cases hx : extractFirst (fireableL s.pstates) s.reactions with
  | none => simp only [fireOne, hx] at h; exact Option.noConfusion h
  | some pr =>
    obtain ⟨r, rest⟩ := pr
    cases r with
    | thenRender src k pg tgt =>
      cases hp : pget s.pstates src with
      | none => simp only [fireOne, hx, hp] at h; exact Option.noConfusion h
      | some v =>
        cases v <;> simp only [fireOne, hx, hp] at h <;>
          injection h with h' <;> subst h' <;> exact ⟨rfl, rfl, rfl, rfl, rfl⟩
    | catchReset src tgt =>
      cases hp : pget s.pstates src with
      | none => simp only [fireOne, hx, hp] at h; exact Option.noConfusion h
      | some v =>
        cases v <;> simp only [fireOne, hx, hp] at h <;>
          injection h with h' <;> subst h' <;> exact ⟨rfl, rfl, rfl, rfl, rfl⟩

theorem drainAux_frame : ∀ (fuel : Nat) (s : QState),
    (drainAux fuel s).pageNum = s.pageNum ∧ (drainAux fuel s).numPages = s.numPages ∧
    (drainAux fuel s).docLoaded = s.docLoaded := by
  intro fuel
  induction fuel with
  | zero => intro s; exact ⟨rfl, rfl, rfl⟩
  | succ n ih =>
    intro s
    dsimp only [drainAux]
    cases hf : fireOne s with
    | none => exact ⟨rfl, rfl, rfl⟩
    | some s' =>
      obtain ⟨h1, h2, h3, _, _⟩ := fireOne_frame s s' hf
      obtain ⟨g1, g2, g3⟩ := ih s'
      exact ⟨g1.trans h1, g2.trans h2, g3.trans h3⟩

theorem drain_frame (s : QState) :
    (drain s).pageNum = s.pageNum ∧ (drain s).numPages = s.numPages ∧
    (drain s).docLoaded = s.docLoaded := drainAux_frame s.reactions.length s

theorem queueRenderPage_frame (s : QState) (pg : Nat) :
    ((queueRenderPage s pg).1).pageNum = s.pageNum ∧
    ((queueRenderPage s pg).1).numPages = s.numPages ∧
    ((queueRenderPage s pg).1).docLoaded = s.docLoaded := by
  unfold queueRenderPage
  split <;> exact ⟨rfl, rfl, rfl⟩

theorem finishStep_frame (s : QState) (b : Bool) :
    (finishStep s b).pageNum = s.pageNum ∧ (finishStep s b).numPages = s.numPages ∧
    (finishStep s b).docLoaded = s.docLoaded := by
  obtain ⟨ps, rs, pq, run, fut, nr, tr, pn, np, dl⟩ := s
  match run with
  | [] => exact ⟨rfl, rfl, rfl⟩
  | (k, tgt) :: rest => exact ⟨rfl, rfl, rfl⟩

theorem stepCmd_frame (s : QState) (c : Cmd) :
    (stepCmd s c).numPages = s.numPages ∧ (stepCmd s c).docLoaded = s.docLoaded := by
  cases c with
  | finish b =>
    obtain ⟨d1, d2, d3⟩ := drain_frame (finishStep s b)
    obtain ⟨f1, f2, f3⟩ := finishStep_frame s b
    exact ⟨d2.trans f2, d3.trans f3⟩
  | op o =>
    obtain ⟨ps, rs, pq, run, fut, nr, tr, pn, np, dl⟩ := s
    cases o with
    | fit =>
      obtain ⟨d1, d2, d3⟩ := drain_frame (fitItSize ⟨ps, rs, pq, run, fut, nr, tr, pn, np, dl⟩).1
      obtain ⟨q1, q2, q3⟩ := queueRenderPage_frame ⟨ps, rs, pq, run, fut, nr, tr, pn, np, dl⟩ pn
      exact ⟨d2.trans q2, d3.trans q3⟩
    | loadRender =>
      obtain ⟨d1, d2, d3⟩ := drain_frame
        (queueRenderPage ⟨ps, rs, pq, run, fut, nr, tr, pn, np, dl⟩ pn).1
      obtain ⟨q1, q2, q3⟩ := queueRenderPage_frame ⟨ps, rs, pq, run, fut, nr, tr, pn, np, dl⟩ pn
      exact ⟨d2.trans q2, d3.trans q3⟩
    | next =>
      dsimp only [stepCmd, doCOp, nextPage]
      split
      · obtain ⟨d1, d2, d3⟩ := drain_frame ⟨ps, rs, pq, run, fut, nr, tr, pn, np, dl⟩
        exact ⟨d2, d3⟩
      · obtain ⟨d1, d2, d3⟩ := drain_frame
          (queueRenderPage ⟨ps, rs, pq, run, fut, nr, tr, pn + 1, np, dl⟩ (pn + 1)).1
        obtain ⟨q1, q2, q3⟩ := queueRenderPage_frame
          ⟨ps, rs, pq, run, fut, nr, tr, pn + 1, np, dl⟩ (pn + 1)
        exact ⟨d2.trans q2, d3.trans q3⟩
    | prev =>
      dsimp only [stepCmd, doCOp, prevPage]
      split
      · obtain ⟨d1, d2, d3⟩ := drain_frame ⟨ps, rs, pq, run, fut, nr, tr, pn, np, dl⟩
        exact ⟨d2, d3⟩
      · obtain ⟨d1, d2, d3⟩ := drain_frame
          (queueRenderPage ⟨ps, rs, pq, run, fut, nr, tr, pn - 1, np, dl⟩ (pn - 1)).1
        obtain ⟨q1, q2, q3⟩ := queueRenderPage_frame
          ⟨ps, rs, pq, run, fut, nr, tr, pn - 1, np, dl⟩ (pn - 1)
        exact ⟨d2.trans q2, d3.trans q3⟩

theorem stepCmd_pageNum (s : QState) (c : Cmd) (h1 : 1 ≤ s.pageNum)
    (h2 : s.pageNum ≤ s.numPages) :
    1 ≤ (stepCmd s c).pageNum ∧ (stepCmd s c).pageNum ≤ s.numPages := by
  cases c with
  | finish b =>
    obtain ⟨d1, d2, d3⟩ := drain_frame (finishStep s b)
    obtain ⟨f1, f2, f3⟩ := finishStep_frame s b
    have hstep : (stepCmd s (Cmd.finish b)).pageNum = s.pageNum := d1.trans f1
    rw [hstep]
    exact ⟨h1, h2⟩
  | op o =>
    obtain ⟨ps, rs, pq, run, fut, nr, tr, pn, np, dl⟩ := s
    have h1' : 1 ≤ pn := h1
    have h2' : pn ≤ np := h2
    cases o with
    | fit =>
      obtain ⟨d1, d2, d3⟩ := drain_frame
        (fitItSize ⟨ps, rs, pq, run, fut, nr, tr, pn, np, dl⟩).1
      obtain ⟨q1, q2, q3⟩ := queueRenderPage_frame
        ⟨ps, rs, pq, run, fut, nr, tr, pn, np, dl⟩ pn
      have hstep : (stepCmd ⟨ps, rs, pq, run, fut, nr, tr, pn, np, dl⟩
          (Cmd.op COp.fit)).pageNum = pn := d1.trans q1
      rw [hstep]
      exact ⟨h1', h2'⟩
    | loadRender =>
      obtain ⟨d1, d2, d3⟩ := drain_frame
        (queueRenderPage ⟨ps, rs, pq, run, fut, nr, tr, pn, np, dl⟩ pn).1
      obtain ⟨q1, q2, q3⟩ := queueRenderPage_frame
        ⟨ps, rs, pq, run, fut, nr, tr, pn, np, dl⟩ pn
      have hstep : (stepCmd ⟨ps, rs, pq, run, fut, nr, tr, pn, np, dl⟩
          (Cmd.op COp.loadRender)).pageNum = pn := d1.trans q1
      rw [hstep]
      exact ⟨h1', h2'⟩
    | next =>
      dsimp only [stepCmd, doCOp, nextPage]
      split
      · obtain ⟨d1, d2, d3⟩ := drain_frame ⟨ps, rs, pq, run, fut, nr, tr, pn, np, dl⟩
        rw [d1]
        exact ⟨h1', h2'⟩
      · rename_i hguard
        obtain ⟨d1, d2, d3⟩ := drain_frame
          (queueRenderPage ⟨ps, rs, pq, run, fut, nr, tr, pn + 1, np, dl⟩ (pn + 1)).1
        obtain ⟨q1, q2, q3⟩ := queueRenderPage_frame
          ⟨ps, rs, pq, run, fut, nr, tr, pn + 1, np, dl⟩ (pn + 1)
        have hstep : (drain (queueRenderPage
            ⟨ps, rs, pq, run, fut, nr, tr, pn + 1, np, dl⟩ (pn + 1)).1).pageNum
            = pn + 1 := d1.trans q1
        rw [hstep]
        simp only [Bool.or_eq_true, Bool.not_eq_true', decide_eq_true_eq, not_or,
          not_le] at hguard
        refine ⟨by omega, ?_⟩
        show pn + 1 ≤ np
        omega
    | prev =>
      dsimp only [stepCmd, doCOp, prevPage]
      split
      · obtain ⟨d1, d2, d3⟩ := drain_frame ⟨ps, rs, pq, run, fut, nr, tr, pn, np, dl⟩
        rw [d1]
        exact ⟨h1', h2'⟩
      · rename_i hguard
        obtain ⟨d1, d2, d3⟩ := drain_frame
          (queueRenderPage ⟨ps, rs, pq, run, fut, nr, tr, pn - 1, np, dl⟩ (pn - 1)).1
        obtain ⟨q1, q2, q3⟩ := queueRenderPage_frame
          ⟨ps, rs, pq, run, fut, nr, tr, pn - 1, np, dl⟩ (pn - 1)
        have hstep : (drain (queueRenderPage
            ⟨ps, rs, pq, run, fut, nr, tr, pn - 1, np, dl⟩ (pn - 1)).1).pageNum
            = pn - 1 := d1.trans q1
        rw [hstep]
        simp only [not_le] at hguard
        refine ⟨by omega, ?_⟩
        show pn - 1 ≤ np
        omega

end PDFJSController.Queue

namespace PDFJSController.Queue

theorem runCmds_bounds : ∀ (cs : List Cmd) (s : QState), 1 ≤ s.pageNum →
    s.pageNum ≤ s.numPages →
    1 ≤ (runCmds s cs).pageNum ∧ (runCmds s cs).pageNum ≤ (runCmds s cs).numPages ∧
    (runCmds s cs).numPages = s.numPages := by
  intro cs
  induction cs with
  | nil => intro s ha hb; exact ⟨ha, hb, rfl⟩
  | cons c cs ih =>
    intro s ha hb
    have hnp := (stepCmd_frame s c).1
    obtain ⟨g1, g2⟩ := stepCmd_pageNum s c ha hb
    obtain ⟨a, b, c'⟩ := ih (stepCmd s c) g1 (by rw [hnp]; exact g2)
    exact ⟨a, b, c'.trans hnp⟩

theorem runCmds_docLoaded : ∀ (cs : List Cmd) (s : QState),
    (runCmds s cs).docLoaded = s.docLoaded := by
  intro cs
  induction cs with
  | nil => intro s; rfl
  | cons c cs ih => intro s; exact (ih _).trans (stepCmd_frame s c).2

theorem getD_append_len (l : List Nat) (x : Nat) : (l ++ [x]).getD l.length 0 = x := by
  induction l with
  | nil => rfl
  | cons a as ih => exact ih

theorem fireOne_nil (s : QState) (h : s.reactions = []) : fireOne s = none := by
  unfold fireOne
  rw [h]
  rfl

/-- Claim C3: on a controller whose document is loaded and whose page index
starts within [1, pageCount], every sequence of operations (navigation, fit,
render completions) keeps the page index within [1, pageCount]; moreover
`prevPage` at index 1 and `nextPage` at index pageCount leave the index
unchanged — no wraparound, no error. -/
theorem page_index_stays_clamped (p n : Nat) (cs : List Cmd)
    (h1 : 1 ≤ p) (h2 : p ≤ n) :
    (1 ≤ (runCmds (initState p n true) cs).pageNum ∧
      (runCmds (initState p n true) cs).pageNum ≤ n) ∧
    (∀ s : QState, s.pageNum = 1 → ((prevPage s).1).pageNum = 1) ∧
    (∀ s : QState, s.pageNum = s.numPages → ((nextPage s).1).pageNum = s.numPages) := by
  refine ⟨?_, ?_, ?_⟩
  · obtain ⟨a, b, c⟩ := runCmds_bounds cs (initState p n true) h1 h2
    have hn : (initState p n true).numPages = n := rfl
    rw [hn] at c
    rw [c] at b
    exact ⟨a, b⟩
  · intro s h
    have : s.pageNum ≤ 1 := by omega
    simp [prevPage, this, h]
  · intro s h
    have : (!s.docLoaded || decide (s.numPages ≤ s.pageNum)) = true := by
      simp [h]
    simp [nextPage, this, h]

/-- Witness for `page_index_stays_clamped`: three `nextPage` calls from page 2
of a 3-page document leave the index at most 3, and the boundary calls are
no-ops on a freshly constructed state. -/
theorem page_index_stays_clamped_witness :
    (1 ≤ 2 ∧ 2 ≤ 3) ∧
    (1 ≤ (runCmds (initState 2 3 true)
        [Cmd.op COp.next, Cmd.op COp.next, Cmd.op COp.next]).pageNum ∧
      (runCmds (initState 2 3 true)
        [Cmd.op COp.next, Cmd.op COp.next, Cmd.op COp.next]).pageNum ≤ 3) ∧
    ((prevPage (initState 1 3 true)).1).pageNum = 1 ∧
    ((nextPage (initState 3 3 true)).1).pageNum = 3 := by
  refine ⟨⟨by decide, by decide⟩, ?_, ?_, ?_⟩
  · exact (page_index_stays_clamped 2 3
      [Cmd.op COp.next, Cmd.op COp.next, Cmd.op COp.next] (by decide) (by decide)).1
  · exact (page_index_stays_clamped 2 3 [] (by decide) (by decide)).2.1
      (initState 1 3 true) rfl
  · exact (page_index_stays_clamped 2 3 [] (by decide) (by decide)).2.2
      (initState 3 3 true) rfl

/-- Counterexample to claim C2 as stated: enqueue the `loadDocument` render
(render 0 starts), enqueue a `fitItSize` render behind it (render 1), then
render 0 rejects.  The trace shows render 1 never starts — the next enqueued
render does not execute — and render 1's returned future (promise 4) rejects
with render 0's error, so the error is not delivered only to the caller
awaiting the failed render. -/
theorem queued_render_skipped_on_earlier_failure :
    failBehind.trace
      = [QEv.start 0 1, QEv.finish 0 (PRes.err 0), QEv.reset, QEv.reset] ∧
    failBehind.futures.getD 1 0 = 4 ∧
    getP failBehind 4 = some (PRes.err 0) := by
  refine ⟨?_, ?_, ?_⟩ <;> rfl

end PDFJSController.Queue

namespace PDFJSController.Queue

/-- Claim C2 (amended): whenever the queue is quiescent with no render in
flight — in particular after a failed render's catch handler has run and reset
the queue — `promiseQueue` holds an already-fulfilled promise, a newly
enqueued render starts immediately, and its returned future settles with that
render's own outcome (fulfilment, or rejection carrying its own index),
independent of any earlier failure.  A render that was already enqueued behind
the failing render before it settled is, however, skipped, and its future
rejects with the earlier render's error (see the counterexample). -/
theorem queue_self_heals_after_reset (p n : Nat) (cs : List Cmd)
    (hq : (runCmds (initState p n true) cs).running = []) :
    getP (runCmds (initState p n true) cs)
        (runCmds (initState p n true) cs).promiseQueue = some PRes.ok ∧
    (stepCmd (runCmds (initState p n true) cs) (Cmd.op COp.fit)).trace
      = (runCmds (initState p n true) cs).trace
        ++ [QEv.start (runCmds (initState p n true) cs).nextRender
             (runCmds (initState p n true) cs).pageNum] ∧
    ∀ b, getP (stepCmd (stepCmd (runCmds (initState p n true) cs) (Cmd.op COp.fit))
               (Cmd.finish b))
           ((stepCmd (runCmds (initState p n true) cs)
               (Cmd.op COp.fit)).futures.getD
             (runCmds (initState p n true) cs).nextRender 0)
         = some (if b then PRes.ok
                 else PRes.err (runCmds (initState p n true) cs).nextRender) := by
  have hInv := inv_runCmds cs (initState p n true) (inv_initState p n true)
  have hdl := runCmds_docLoaded cs (initState p n true)
  rcases hs : runCmds (initState p n true) cs with
    ⟨ps, rs, pq, run, fut, nr, tr, pn, np, dl⟩
  rw [hs] at hInv hdl hq
  dsimp only [initState] at hdl
  dsimp only at hdl hq
  subst hdl
  subst hq
  obtain ⟨hfut, hpqlt, hrest⟩ := hInv
  dsimp only at hfut hpqlt hrest
  obtain ⟨hreacts, hpq, lo, hauto, hlo⟩ := hrest
  dsimp only [getP] at hpq
  subst hreacts
  have hstep : stepCmd ⟨ps, [], pq, [], fut, nr, tr, pn, np, true⟩ (Cmd.op COp.fit)
      = ⟨ps ++ [none, none], [Reaction.catchReset ps.length (ps.length + 1)],
         ps.length + 1, [] ++ [(nr, ps.length)], fut ++ [ps.length + 1], nr + 1,
         tr ++ [QEv.start nr pn], pn, np, true⟩ :=
    enqueue_start ps pq [] fut nr tr pn np pn hpq hpqlt
  refine ⟨hpq, ?_, ?_⟩
  · rw [hstep]
  · intro b
    rw [hstep]
    show getP (drain (finishStep
        ⟨ps ++ [none, none], [Reaction.catchReset ps.length (ps.length + 1)],
         ps.length + 1, [] ++ [(nr, ps.length)], fut ++ [ps.length + 1], nr + 1,
         tr ++ [QEv.start nr pn], pn, np, true⟩ b))
        ((fut ++ [ps.length + 1]).getD nr 0)
      = some (if b then PRes.ok else PRes.err nr)
    have hgd : (fut ++ [ps.length + 1]).getD nr 0 = ps.length + 1 := by
      rw [← hfut]
      exact getD_append_len fut _
    rw [hgd]
    cases b with
    | true =>
      have hfin : finishStep
          ⟨ps ++ [none, none], [Reaction.catchReset ps.length (ps.length + 1)],
           ps.length + 1, [] ++ [(nr, ps.length)], fut ++ [ps.length + 1], nr + 1,
           tr ++ [QEv.start nr pn], pn, np, true⟩ true
          = ⟨pset (ps ++ [none, none]) ps.length PRes.ok,
             [Reaction.catchReset ps.length (ps.length + 1)], ps.length + 1, [],
             fut ++ [ps.length + 1], nr + 1,
             (tr ++ [QEv.start nr pn]) ++ [QEv.finish nr PRes.ok], pn, np, true⟩ := rfl
      rw [hfin]
      have h1 : pget (pset (ps ++ [none, none]) ps.length PRes.ok) ps.length
          = some PRes.ok := pget_pset_self _ _ _ (by simp)
      have hfc := fire_catch_ok (pset (ps ++ [none, none]) ps.length PRes.ok)
        ps.length (ps.length + 1) [] (ps.length + 1) [] (fut ++ [ps.length + 1])
        (nr + 1) ((tr ++ [QEv.start nr pn]) ++ [QEv.finish nr PRes.ok]) pn np true h1
      rw [drain_some _ _ hfc, drain_none _ (fireOne_nil _ rfl)]
      show pget (pset (pset (ps ++ [none, none]) ps.length PRes.ok) (ps.length + 1)
        PRes.ok) (ps.length + 1) = some PRes.ok
      apply pget_pset_self
      rw [length_pset]
      simp
    | false =>
      have hfin : finishStep
          ⟨ps ++ [none, none], [Reaction.catchReset ps.length (ps.length + 1)],
           ps.length + 1, [] ++ [(nr, ps.length)], fut ++ [ps.length + 1], nr + 1,
           tr ++ [QEv.start nr pn], pn, np, true⟩ false
          = ⟨pset (ps ++ [none, none]) ps.length (PRes.err nr),
             [Reaction.catchReset ps.length (ps.length + 1)], ps.length + 1, [],
             fut ++ [ps.length + 1], nr + 1,
             (tr ++ [QEv.start nr pn]) ++ [QEv.finish nr (PRes.err nr)],
             pn, np, true⟩ := rfl
      rw [hfin]
      have h1 : pget (pset (ps ++ [none, none]) ps.length (PRes.err nr)) ps.length
          = some (PRes.err nr) := pget_pset_self _ _ _ (by simp)
      have hfc := fire_catch_err (pset (ps ++ [none, none]) ps.length (PRes.err nr))
        ps.length (ps.length + 1) nr [] (ps.length + 1) []
        (fut ++ [ps.length + 1]) (nr + 1)
        ((tr ++ [QEv.start nr pn]) ++ [QEv.finish nr (PRes.err nr)]) pn np true h1
      rw [drain_some _ _ hfc, drain_none _ (fireOne_nil _ rfl)]
      show pget (pset (pset (ps ++ [none, none]) ps.length (PRes.err nr))
          (ps.length + 1) (PRes.err nr) ++ [some PRes.ok]) (ps.length + 1)
        = some (PRes.err nr)
      rw [pget_append_lt]
      · apply pget_pset_self
        rw [length_pset]
        simp
      · rw [length_pset, length_pset]
        simp

end PDFJSController.Queue

namespace PDFJSController.Queue

/-- Witness for `queue_self_heals_after_reset`: after the `loadDocument` render
fails (and the catch handler resets the queue), the queue is quiescent, and a
newly enqueued `fitItSize` render starts and settles with its own outcome. -/
theorem queue_self_heals_after_reset_witness :
    (runCmds (initState 1 5 true)
        [Cmd.op COp.loadRender, Cmd.finish false]).running = [] ∧
    (getP (runCmds (initState 1 5 true) [Cmd.op COp.loadRender, Cmd.finish false])
        (runCmds (initState 1 5 true)
          [Cmd.op COp.loadRender, Cmd.finish false]).promiseQueue = some PRes.ok ∧
     (stepCmd (runCmds (initState 1 5 true)
           [Cmd.op COp.loadRender, Cmd.finish false]) (Cmd.op COp.fit)).trace
       = (runCmds (initState 1 5 true)
           [Cmd.op COp.loadRender, Cmd.finish false]).trace
         ++ [QEv.start (runCmds (initState 1 5 true)
               [Cmd.op COp.loadRender, Cmd.finish false]).nextRender
              (runCmds (initState 1 5 true)
                [Cmd.op COp.loadRender, Cmd.finish false]).pageNum] ∧
     ∀ b, getP (stepCmd (stepCmd (runCmds (initState 1 5 true)
                  [Cmd.op COp.loadRender, Cmd.finish false]) (Cmd.op COp.fit))
                (Cmd.finish b))
            ((stepCmd (runCmds (initState 1 5 true)
                [Cmd.op COp.loadRender, Cmd.finish false])
                (Cmd.op COp.fit)).futures.getD
              (runCmds (initState 1 5 true)
                [Cmd.op COp.loadRender, Cmd.finish false]).nextRender 0)
          = some (if b then PRes.ok
                  else PRes.err (runCmds (initState 1 5 true)
                    [Cmd.op COp.loadRender, Cmd.finish false]).nextRender)) :=
  ⟨by decide,
   queue_self_heals_after_reset 1 5 [Cmd.op COp.loadRender, Cmd.finish false]
     (by decide)⟩

end PDFJSController.Queue

namespace PDFJSController.Queue

theorem inert_step (s : QState) (c : Cmd) (h : InertState s) :
    InertState (stepCmd s c) ∧
    (stepCmd s c).pageNum
      = (match c with
         | Cmd.op COp.prev => if s.pageNum ≤ 1 then s.pageNum else s.pageNum - 1
         | _ => s.pageNum) := by
  obtain ⟨ps, rs, pq, run, fut, nr, tr, pn, np, dl⟩ := s
  obtain ⟨h1, h2, h3, h4, h5, h6, h7, h8⟩ := h
  dsimp only at h1 h2 h3 h4 h5 h6 h7 h8
  subst h1 h2 h3 h4 h5 h6 h7 h8
  cases c with
  | finish b => exact ⟨⟨rfl, rfl, rfl, rfl, rfl, rfl, rfl, rfl⟩, rfl⟩
  | op o =>
    cases o with
    | fit => exact ⟨⟨rfl, rfl, rfl, rfl, rfl, rfl, rfl, rfl⟩, rfl⟩
    | loadRender => exact ⟨⟨rfl, rfl, rfl, rfl, rfl, rfl, rfl, rfl⟩, rfl⟩
    | next => exact ⟨⟨rfl, rfl, rfl, rfl, rfl, rfl, rfl, rfl⟩, rfl⟩
    | prev =>
      dsimp only [stepCmd, doCOp, prevPage]
      by_cases hpn : pn ≤ 1
      · rw [if_pos hpn, if_pos hpn]
        exact ⟨⟨rfl, rfl, rfl, rfl, rfl, rfl, rfl, rfl⟩, rfl⟩
      · rw [if_neg hpn, if_neg hpn]
        exact ⟨⟨rfl, rfl, rfl, rfl, rfl, rfl, rfl, rfl⟩, rfl⟩

theorem inert_runCmds : ∀ (cs : List Cmd) (s : QState), InertState s →
    InertState (runCmds s cs) ∧ (runCmds s cs).pageNum = pageAfter s.pageNum cs := by
  intro cs
  induction cs with
  | nil => intro s h; exact ⟨h, rfl⟩
  | cons c cs ih =>
    intro s h
    obtain ⟨h', hpn⟩ := inert_step s c h
    obtain ⟨h'', hpn'⟩ := ih _ h'
    refine ⟨h'', ?_⟩
    show (runCmds (stepCmd s c) cs).pageNum = pageAfter s.pageNum (c :: cs)
    rw [hpn', hpn]
    cases c with
    | op o => cases o <;> rfl
    | finish b => rfl

theorem doCOp_no_future (s : QState) (hdl : s.docLoaded = false) (o : COp) :
    (doCOp s o).2 = none := by
  obtain ⟨ps, rs, pq, run, fut, nr, tr, pn, np, dl⟩ := s
  dsimp only at hdl
  subst hdl
  cases o with
  | fit => rfl
  | loadRender => rfl
  | next => rfl
  | prev =>
    dsimp only [doCOp, prevPage]
    by_cases hpn : pn ≤ 1
    · rw [if_pos hpn]
    · rw [if_neg hpn]
      rfl

/-- Counterexample to claim C6 as stated: a controller constructed with page
number 2 and no document loaded.  `prevPage` queues and executes no render and
throws no error, but it does change the controller's state: the page index
drops from 2 to 1, because `prevPage` (lines 135-141) never checks
`this.pdfDoc` before decrementing. -/
theorem prevPage_decrements_without_document :
    (initState 2 5 false).pageNum = 2 ∧ prevNoDoc.pageNum = 1 ∧
    prevNoDoc.trace = [] ∧ prevNoDoc.futures = [] :=
  ⟨rfl, rfl, rfl, rfl⟩

/-- Claim C6 (amended): before any successful `loadDocument`, no operation ever
queues or executes a render (trace, futures and render counter stay empty), no
error is thrown (every operation returns the immediately-resolved future), and
`nextPage` and `fitItSize` leave the page index unchanged; `prevPage`,
however, still decrements the page index when it is above 1, as the
counterexample shows — the index evolves exactly by `pageAfter`. -/
theorem nav_without_document (p n : Nat) (cs : List Cmd) :
    (runCmds (initState p n false) cs).trace = [] ∧
    (runCmds (initState p n false) cs).futures = [] ∧
    (runCmds (initState p n false) cs).nextRender = 0 ∧
    (∀ o, (doCOp (runCmds (initState p n false) cs) o).2 = none) ∧
    (runCmds (initState p n false) cs).pageNum = pageAfter p cs := by
  obtain ⟨hI, hpn⟩ := inert_runCmds cs (initState p n false)
    ⟨rfl, rfl, rfl, rfl, rfl, rfl, rfl, rfl⟩
  obtain ⟨h1, h2, h3, h4, h5, h6, h7, h8⟩ := hI
  exact ⟨h2, h4, h5, fun o => doCOp_no_future _ h1 o, hpn⟩

/-- Claim C7: if the document open inside `loadDocument` rejects, the error
propagates to the caller, the controller state is untouched (document handle
still absent, no render enqueued), and subsequent navigation and fit calls
degrade to no-ops rather than throwing: they queue and execute no render and
every returned future is the immediately-resolved one. -/
theorem load_failure_propagates (p n e : Nat) (cs cs' : List Cmd) :
    loadDocument (runCmds (initState p n false) cs) (OpenResult.failure e)
      = (runCmds (initState p n false) cs, Except.error e) ∧
    ((loadDocument (runCmds (initState p n false) cs)
        (OpenResult.failure e)).1).docLoaded = false ∧
    (runCmds ((loadDocument (runCmds (initState p n false) cs)
        (OpenResult.failure e)).1) cs').trace = [] ∧
    (runCmds ((loadDocument (runCmds (initState p n false) cs)
        (OpenResult.failure e)).1) cs').futures = [] ∧
    (runCmds ((loadDocument (runCmds (initState p n false) cs)
        (OpenResult.failure e)).1) cs').nextRender = 0 ∧
    (∀ o, (doCOp (runCmds ((loadDocument (runCmds (initState p n false) cs)
        (OpenResult.failure e)).1) cs') o).2 = none) := by
  have hI := (inert_runCmds cs (initState p n false)
    ⟨rfl, rfl, rfl, rfl, rfl, rfl, rfl, rfl⟩).1
  have hI' := (inert_runCmds cs' (runCmds (initState p n false) cs) hI).1
  obtain ⟨g1, g2, g3, g4, g5, g6, g7, g8⟩ := hI'
  exact ⟨rfl, hI.1, g2, g4, g5, fun o => doCOp_no_future _ g1 o⟩

end PDFJSController.Queue
